import Mathlib

/-!
# feltor-dev/spectral: the per-mode linear operator, its Poisson closure and the padding rules

A shallow embedding of `equations.h` (classes `Poisson` and `Equations`),
`spectral/padding.h` (the traits class `TotalNumberOf`), `spectral/message.h` and
`file/read_input.h` (the two overloads of `read_input`).

Number model.
* `size_t` values are natural numbers below `2 ^ 64`; every `size_t` operation is
  written with an explicit reduction modulo `2 ^ 64`.
* A C++ `double` is modelled by the type `double`: `double.fin q` is the finite value
  `q`, idealised as an exact rational (no rounding, no overflow), and
  `double.nonfinite` stands for the values `inf`, `-inf` and `NaN` that a division by
  zero produces.  Sums, differences and products are finite exactly when both
  operands are; a quotient is finite exactly when the numerator is finite and the
  denominator is not zero.  Every denominator of the program is computed from the
  inputs by products and differences only, so denominators are rationals.
* Inputs of C++ type `double` (the physical parameters, `laplace`) are finite and
  are therefore rationals; they are injected into `double` where they meet a value
  that may be non-finite.
-/

/-! ## `spectral/padding.h` -/

namespace size_t

/-- The number of values of a 64 bit `size_t`. -/
def modulus : ℕ := 2 ^ 64

/-- Unsigned addition, wrapping modulo `2 ^ 64`. -/
def add (a b : ℕ) : ℕ := (a + b) % modulus

/-- Unsigned subtraction of two `size_t` values, wrapping modulo `2 ^ 64`. -/
def sub (a b : ℕ) : ℕ := (a + modulus - b % modulus) % modulus

/-- Unsigned multiplication, wrapping modulo `2 ^ 64`. -/
def mul (a b : ℕ) : ℕ := (a * b) % modulus

/-- Unsigned remainder, the operator `%` of C++ on `size_t`. -/
def mod (a b : ℕ) : ℕ := a % b

end size_t

namespace spectral

/-- The padding types of the Matrix class (`enum Padding`). -/
inductive Padding where
  /-- Do not use any padding. -/
  | TL_NONE
  /-- Pad lines with 2-cols%2 elements for inplace DFT in horizontal direction. -/
  | TL_DFT
  /-- Add 2-rows%2 lines at end of matrix for inplace DFT in vertical direction. -/
  | TL_DRT_DFT
  deriving DecidableEq

/-- The function `TotalNumberOf<P>::columns`: the primary template serves `TL_NONE`,
the two specialisations serve `TL_DFT` and `TL_DRT_DFT`. -/
def TotalNumberOf.columns : Padding → ℕ → ℕ
  | .TL_NONE, cols => cols
  | .TL_DFT, m => size_t.add (size_t.sub m (size_t.mod m 2)) 2
  | .TL_DRT_DFT, m => m

/-- The function `TotalNumberOf<P>::elements`. -/
def TotalNumberOf.elements : Padding → ℕ → ℕ → ℕ
  | .TL_NONE, rows, cols => size_t.mul rows cols
  | .TL_DFT, n, m => size_t.mul n (size_t.add (size_t.sub m (size_t.mod m 2)) 2)
  | .TL_DRT_DFT, n, m => size_t.mul m (size_t.add (size_t.sub n (size_t.mod n 2)) 2)

end spectral

/-! ## `spectral/message.h` -/

namespace spectral

/-- The class `Message`: the text `m`, the file `f` and the line `l` of a `throw`. -/
structure Message where
  m : String
  f : String
  l : Int
  deriving DecidableEq

end spectral

/-! ## The number model of `equations.h` -/

namespace toefl

/-- A C++ `double`: a finite value, idealised as an exact rational, or a non-finite
value (`inf`, `-inf` or `NaN`). -/
inductive double where
  | fin (q : ℚ)
  | nonfinite
  deriving DecidableEq

namespace double

instance : Coe ℚ double := ⟨double.fin⟩

instance : OfNat double n := ⟨double.fin n⟩

/-- The sum of two doubles. -/
def add : double → double → double
  | fin a, fin b => fin (a + b)
  | _, _ => nonfinite

/-- The difference of two doubles. -/
def sub : double → double → double
  | fin a, fin b => fin (a - b)
  | _, _ => nonfinite

/-- The product of two doubles. -/
def mul : double → double → double
  | fin a, fin b => fin (a * b)
  | _, _ => nonfinite

/-- The unary minus. -/
def neg : double → double
  | fin a => fin (-a)
  | nonfinite => nonfinite

/-- The quotient of a double by a finite denominator: dividing by zero leaves the
finite values. -/
def div : double → ℚ → double
  | fin a, b => if b = 0 then nonfinite else fin (a / b)
  | nonfinite, _ => nonfinite

instance : Add double := ⟨add⟩
instance : Sub double := ⟨sub⟩
instance : Mul double := ⟨mul⟩
instance : Neg double := ⟨neg⟩
instance : HDiv double ℚ double := ⟨div⟩

/-- Whether the value is finite. -/
def isFinite : double → Bool
  | fin _ => true
  | nonfinite => false

end double

/-- The function `pow( double, int)` of `<cmath>` at a finite base and an exponent
that is not negative. -/
def pow (x : ℚ) (n : ℕ) : ℚ := x ^ n

/-- The type `std::complex<double>`: a real and an imaginary part. -/
structure complex where
  re : double
  im : double
  deriving DecidableEq

namespace complex

/-- The converting constructor `complex( re)`: the imaginary part is zero. -/
def ofDouble (x : double) : complex := ⟨x, 0⟩

/-- The operator `complex + complex`. -/
def add (z w : complex) : complex := ⟨z.re + w.re, z.im + w.im⟩

/-- The operator `complex - complex`. -/
def sub (z w : complex) : complex := ⟨z.re - w.re, z.im - w.im⟩

/-- The operator `complex + double`: the real part takes the sum. -/
def addDouble (z : complex) (x : double) : complex := ⟨z.re + x, z.im⟩

/-- The operator `complex - double`: the real part takes the difference. -/
def subDouble (z : complex) (x : double) : complex := ⟨z.re - x, z.im⟩

/-- The operator `complex * double`: both parts are scaled. -/
def mulDouble (z : complex) (x : double) : complex := ⟨z.re * x, z.im * x⟩

/-- The operator `double * complex`: both parts are scaled. -/
def doubleMul (x : double) (z : complex) : complex := ⟨z.re * x, z.im * x⟩

instance : Add complex := ⟨add⟩
instance : Sub complex := ⟨sub⟩
instance : HAdd complex double complex := ⟨addDouble⟩
instance : HSub complex double complex := ⟨subDouble⟩
instance : HMul complex double complex := ⟨mulDouble⟩
instance : HMul double complex complex := ⟨doubleMul⟩

end complex

end toefl

/-! ## Containers -/

namespace std

/-- The type `std::array<double,n>`. -/
def array (n : ℕ) : Type := Fin n → toefl.double

/-- The assignment `c[i] = v`. -/
def array.set {n : ℕ} (c : array n) (i : Fin n) (v : toefl.double) : array n :=
  fun k => if k = i then v else c k

/-- The content of a local array that is declared without an initialiser. The
program writes every element before it reads one. -/
def array.uninitialized (n : ℕ) : array n := fun _ => toefl.double.nonfinite

end std

namespace toefl

/-- Modelled from the spec: the class `QuadMat<complex,n>` of `toefl/quadmat.h`, which
is not among the sources. It is the operator matrix of the spec, "a square complex
matrix of fixed size 2 (no impurity) or 3 (with impurity)", read and written through
`c(i,j)`. -/
def QuadMat (n : ℕ) : Type := Fin n → Fin n → complex

/-- The assignment `c(i,j) = v`. -/
def QuadMat.set {n : ℕ} (c : QuadMat n) (i j : Fin n) (v : complex) : QuadMat n :=
  fun k l => if k = i ∧ l = j then v else c k l

/-- Modelled from the spec: the parameter bundle `Physical` of `blueprint.h`, which is
not among the sources. Its fields are the ones the constructors of `Poisson` and
`Equations` read: per species (index 0 the ions, index 1 the impurities) the density
scale `a`, the mass ratio `mu`, the temperature ratio `tau` and the gradient drive
`g`; shared, the dissipation `d`, the hyperviscosity `nu`, the electron drive `g_e`
and the curvature `kappa`. -/
structure Physical where
  a : Fin 2 → ℚ
  mu : Fin 2 → ℚ
  tau : Fin 2 → ℚ
  g : Fin 2 → ℚ
  d : ℚ
  nu : ℚ
  g_e : ℚ
  kappa : ℚ

/-- What the compilation fixes: whether `TL_DEBUG` is defined, and the text that
`__FILE__` expands to inside `equations.h`. -/
structure Build where
  TL_DEBUG : Bool
  FILE : String

/-- The class `Poisson`: the coefficients of the local Poisson equation. -/
structure Poisson where
  a_i : ℚ
  mu_i : ℚ
  tau_i : ℚ
  a_z : ℚ
  mu_z : ℚ
  tau_z : ℚ

/-- The constructor `Poisson::Poisson( phys)`. -/
def Poisson.ctor (phys : Physical) : Poisson :=
  { a_i := phys.a 0, mu_i := phys.mu 0, tau_i := phys.tau 0,
    a_z := phys.a 1, mu_z := phys.mu 1, tau_z := phys.tau 1 }

/-- The function `Poisson::gamma0_i`. -/
def Poisson.gamma0_i (p : Poisson) (laplace : ℚ) : double :=
  (1 : double) / (1 - p.tau_i * p.mu_i * laplace)

/-- The function `Poisson::gamma0_z`. -/
def Poisson.gamma0_z (p : Poisson) (laplace : ℚ) : double :=
  (1 : double) / (1 - p.tau_z * p.mu_z * laplace)

/-- The function `Poisson::gamma1_i`. -/
def Poisson.gamma1_i (p : Poisson) (laplace : ℚ) : double :=
  (1 : double) / (1 - (0.5 : ℚ) * p.tau_i * p.mu_i * laplace)

/-- The function `Poisson::gamma1_z`. -/
def Poisson.gamma1_z (p : Poisson) (laplace : ℚ) : double :=
  (1 : double) / (1 - (0.5 : ℚ) * p.tau_z * p.mu_z * laplace)

/-- The operator `Poisson::operator()( std::array<double,2>& c, laplace)`: with
`TL_DEBUG` a zero `laplace` throws at line 188, otherwise both prefactors are
written. -/
def Poisson.operator2 (b : Build) (p : Poisson) (c : std.array 2) (laplace : ℚ) :
    Except spectral.Message (std.array 2) :=
  if b.TL_DEBUG = true ∧ laplace = 0 then
    throw ⟨"Laplace is zero in Poisson equation!", b.FILE, 188⟩
  else
    let rho : ℚ := p.a_i * p.mu_i * laplace
    let c := c.set 0 ((1 : double) / rho)
    let c := c.set 1 (((-p.a_i : ℚ) : double) * p.gamma1_i laplace / rho)
    pure c

/-- The operator `Poisson::operator()( std::array<double,3>& c, laplace)`: with
`TL_DEBUG` a zero `laplace` throws at line 199, otherwise the three prefactors are
written. -/
def Poisson.operator3 (b : Build) (p : Poisson) (c : std.array 3) (laplace : ℚ) :
    Except spectral.Message (std.array 3) :=
  if b.TL_DEBUG = true ∧ laplace = 0 then
    throw ⟨"Laplace is zero in Poisson equation!", b.FILE, 199⟩
  else
    let rho : ℚ := (p.a_i * p.mu_i + p.a_z * p.mu_z) * laplace
    let c := c.set 0 ((1 : double) / rho)
    let c := c.set 1 (((-p.a_i : ℚ) : double) * p.gamma1_i laplace / rho)
    let c := c.set 2 (((-p.a_z : ℚ) : double) * p.gamma1_z laplace / rho)
    pure c

/-- The class `Equations`: the linear part of the local toefl equations. -/
structure Equations where
  p : Poisson
  mhw : Bool
  dd : ℚ
  nu : ℚ
  g_e : ℚ
  g_i : ℚ
  g_z : ℚ
  kappa_y : ℚ
  tau_i : ℚ
  tau_z : ℚ

/-- The constructor `Equations::Equations( phys, mhw)`. -/
def Equations.ctor (phys : Physical) (mhw : Bool) : Equations :=
  { p := Poisson.ctor phys, mhw := mhw,
    dd := phys.d, nu := phys.nu,
    g_e := phys.g_e, g_i := phys.g 0, g_z := phys.g 1,
    kappa_y := phys.kappa,
    tau_i := phys.tau 0, tau_z := phys.tau 1 }

/-- The operator `Equations::operator()( QuadMat<complex,2>& c, laplace, dy)`. -/
def Equations.operator2 (b : Build) (e : Equations) (c : QuadMat 2) (laplace : ℚ)
    (dy : complex) : Except spectral.Message (QuadMat 2) :=
  let d : ℚ := e.dd
  let d : ℚ := if e.mhw = true ∧ dy = complex.ofDouble 0 then 0 else d
  if laplace = 0 then
    let c := c.set 0 0 (complex.ofDouble ((-d : ℚ) : double))
    let c := c.set 0 1 (complex.ofDouble 0)
    let c := c.set 1 0 (complex.ofDouble 0)
    let c := c.set 1 1 (complex.ofDouble 0)
    pure c
  else do
    let phi : std.array 2 := std.array.uninitialized 2
    let phi ← e.p.operator2 b phi laplace
    let curv : complex := (e.kappa_y : double) * dy
    let P : complex := (e.g_e : double) * dy + curv + (d : double)
    let Q : complex :=
      (e.g_i : double) * dy * e.p.gamma1_i laplace + curv * e.p.gamma1_i laplace
    let c := c.set 0 0
      (P * phi 0 - curv - (d : double) - ((e.nu * pow (-laplace) 2 : ℚ) : double))
    let c := c.set 0 1 (P * phi 1)
    let c := c.set 1 0 (Q * phi 0)
    let c := c.set 1 1
      (Q * phi 1 + (e.tau_i : double) * curv - ((e.nu * pow (-laplace) 2 : ℚ) : double))
    pure c

/-- The operator `Equations::operator()( QuadMat<complex,3>& c, laplace, dy)`. -/
def Equations.operator3 (b : Build) (e : Equations) (c : QuadMat 3) (laplace : ℚ)
    (dy : complex) : Except spectral.Message (QuadMat 3) :=
  let d : ℚ := e.dd
  let d : ℚ := if e.mhw = true ∧ dy = complex.ofDouble 0 then 0 else d
  if laplace = 0 then
    let c := c.set 0 0 (complex.ofDouble ((-d : ℚ) : double))
    let c := c.set 0 1 (complex.ofDouble 0)
    let c := c.set 0 2 (complex.ofDouble 0)
    let c := c.set 1 0 (complex.ofDouble 0)
    let c := c.set 1 1 (complex.ofDouble 0)
    let c := c.set 1 2 (complex.ofDouble 0)
    let c := c.set 2 0 (complex.ofDouble 0)
    let c := c.set 2 1 (complex.ofDouble 0)
    let c := c.set 2 2 (complex.ofDouble 0)
    pure c
  else do
    let phi : std.array 3 := std.array.uninitialized 3
    let phi ← e.p.operator3 b phi laplace
    let curv : complex := (e.kappa_y : double) * dy
    let P : complex := (e.g_e : double) * dy + curv + (d : double)
    let Q : complex :=
      (e.g_i : double) * dy * e.p.gamma1_i laplace + curv * e.p.gamma1_i laplace
    let R : complex :=
      (e.g_z : double) * dy * e.p.gamma1_z laplace + curv * e.p.gamma1_z laplace
    let c := c.set 0 0
      (P * phi 0 - curv - (d : double) - ((e.nu * pow (-laplace) 2 : ℚ) : double))
    let c := c.set 0 1 (P * phi 1)
    let c := c.set 0 2 (P * phi 2)
    let c := c.set 1 0 (Q * phi 0)
    let c := c.set 1 1
      (Q * phi 1 + (e.tau_i : double) * curv - ((e.nu * pow (-laplace) 2 : ℚ) : double))
    let c := c.set 1 2 (Q * phi 2)
    let c := c.set 2 0 (R * phi 0)
    let c := c.set 2 1 (R * phi 1)
    let c := c.set 2 2
      (R * phi 2 + (e.tau_z : double) * curv - ((e.nu * pow (-laplace) 2 : ℚ) : double))
    pure c

end toefl

/-! ## The formulas of the spec, sections 4.2 and 4.3

These definitions follow the words of the spec; the theorems compare them with the
operators above, which follow the source. -/

namespace toefl.spec

/-- The gyro-averaging factor `1 / (1 - 0.5 tau mu laplace)` of the spec: a finite
quotient where the denominator is not zero, no finite value where it is. -/
def gamma1 (tau mu laplace : ℚ) : double :=
  if 1 - (1 / 2 : ℚ) * tau * mu * laplace = 0 then double.nonfinite
  else double.fin (1 / (1 - (1 / 2 : ℚ) * tau * mu * laplace))

/-- The effective dissipation `d_eff`: `0` when the modified flag is set and
`dy == 0`, otherwise `d`. -/
def d_eff (mhw : Bool) (d : ℚ) (dy : complex) : ℚ :=
  if mhw = true ∧ dy = complex.ofDouble 0 then 0 else d

/-- The curvature term `curv = kappa dy`. -/
def curv (kappa : ℚ) (dy : complex) : complex :=
  (kappa : double) * dy

/-- The electron row prefactor `P = g_e dy + curv + d_eff`. -/
def P (g_e kappa d_eff : ℚ) (dy : complex) : complex :=
  (g_e : double) * dy + curv kappa dy + (d_eff : double)

/-- The ion row prefactor `Q = g_i dy gamma1_i + curv gamma1_i`. -/
def Q (g_i kappa : ℚ) (dy : complex) (gamma1_i : double) : complex :=
  (g_i : double) * dy * gamma1_i + curv kappa dy * gamma1_i

/-- The impurity row prefactor `R = g_z dy gamma1_z + curv gamma1_z`. -/
def R (g_z kappa : ℚ) (dy : complex) (gamma1_z : double) : complex :=
  (g_z : double) * dy * gamma1_z + curv kappa dy * gamma1_z

/-- The hyperviscosity term `visc = nu (-laplace)^2`. -/
def visc (nu laplace : ℚ) : ℚ :=
  nu * (-laplace) ^ 2

end toefl.spec

/-! ## A concrete parameter set

The end-to-end scenario of the spec, section 8, with impurities that copy the ions. -/

namespace toefl.scenario

/-- The parameters `a = mu = tau = g = 1`, `d = 0.01`, `nu = 0.001`, `g_e = 1`,
`kappa = 0.1`. -/
def phys : Physical :=
  { a := fun _ => 1, mu := fun _ => 1, tau := fun _ => 1, g := fun _ => 1,
    d := 1 / 100, nu := 1 / 1000, g_e := 1, kappa := 1 / 10 }

/-- A build without `TL_DEBUG`. -/
def build : Build := { TL_DEBUG := false, FILE := "equations.h" }

/-- The derivative eigenvalue `dy = 2i`. -/
def dy : complex := ⟨0, 2⟩

/-- An output matrix before the call. -/
def coeff (n : ℕ) : QuadMat n := fun _ _ => complex.ofDouble 0

end toefl.scenario

/-! ## Well-defined results

A matrix is well defined when no entry is the value that a division by zero leaves. -/

namespace toefl

/-- Whether both parts of the complex number are finite. -/
def complex.isFinite (z : complex) : Bool := z.re.isFinite && z.im.isFinite

/-- Whether every entry of the matrix is finite. -/
def QuadMat.isFinite {n : ℕ} (M : QuadMat n) : Prop := ∀ i j, (M i j).isFinite = true

/-- A build with `TL_DEBUG`. -/
def scenario.debug : Build := { TL_DEBUG := true, FILE := "equations.h" }

/-- The parameters of the scenario with the density scales set to zero: the
denominator `rho` of the closure vanishes at every mode. -/
def scenario.degenerate : Physical := { scenario.phys with a := fun _ => 0 }

end toefl

/-! ## `file/read_input.h`

The streams of `<fstream>` and `<sstream>` are modelled over a text held in memory:
the characters not yet read and the three state bits. Reading from memory sets no
`badbit`. The facet `num_get`, which `operator>>` hands the characters of a number to,
belongs to the standard library and is a parameter of the model: from the characters
that follow the white space it yields the value read, if there is one, and the
characters it leaves unread. The elements of a `std::vector<double>` are finite
values, idealised as rationals. -/

namespace std

/-- The state of a `std::istream` over a text held in memory. -/
structure istream where
  buf : List Char
  eofbit : Bool
  failbit : Bool
  badbit : Bool

/-- A stream that was just opened on a text. -/
def istream.on (text : List Char) : istream :=
  { buf := text, eofbit := false, failbit := false, badbit := false }

/-- The function `good()`: no state bit is set. -/
def istream.good (is : istream) : Bool := !is.eofbit && !is.failbit && !is.badbit

/-- The function `fail()`: `failbit` or `badbit` is set. -/
def istream.fail (is : istream) : Bool := is.failbit || is.badbit

/-- The function `bad()`: `badbit` is set. -/
def istream.bad (is : istream) : Bool := is.badbit

/-- The function `get( s)`: the next character is moved to `s`; at the end of the text
`eofbit` and `failbit` are set and `s` keeps its value. -/
def istream.get (is : istream) (s : Char) : istream × Char :=
  if is.good then
    match is.buf with
    | [] => ({ is with eofbit := true, failbit := true }, s)
    | c :: rest => ({ is with buf := rest }, c)
  else ({ is with failbit := true }, s)

/-- The function `isspace` of the classic locale. -/
def isspace (c : Char) : Bool :=
  c = ' ' || c = '\t' || c = '\n' || c = '\r' || c = Char.ofNat 11 || c = Char.ofNat 12

/-- The facet `num_get` for `double`: the value, if the characters start with a
number, and the characters left unread. -/
structure num_get where
  scan : List Char → Option ℚ × List Char

/-- What the standard says of `num_get`: it reads a prefix of the characters, and the
character `=`, which is part of no number, is not in it. -/
def num_get.lawful (ng : num_get) : Prop :=
  ∀ buf : List Char, ∃ pre : List Char, buf = pre ++ (ng.scan buf).2 ∧ '=' ∉ pre

/-- The operator `is >> read` for a `double`: white space is skipped, then `num_get`
reads; at the end of the text `eofbit` is set, and without a number `failbit`. -/
def istream.extract (ng : num_get) (is : istream) (read : ℚ) : istream × ℚ :=
  if is.good then
    match is.buf.dropWhile isspace with
    | [] => ({ is with buf := [], eofbit := true, failbit := true }, read)
    | c :: rest =>
      match ng.scan (c :: rest) with
      | (some v, unread) => ({ is with buf := unread, eofbit := unread.isEmpty }, v)
      | (none, unread) =>
        ({ is with buf := unread, eofbit := unread.isEmpty, failbit := true }, 0)
  else ({ is with failbit := true }, read)

/-- The characters of `file.data()` read as a C string: those before the first
character `NUL`. -/
def c_str (file : List Char) : List Char := file.takeWhile (fun c => c ≠ Char.ofNat 0)

end std

namespace file

/-- The variables of the loop of `read_input`. -/
structure read_input.state where
  is : std.istream
  s : Char
  read : ℚ
  para : List ℚ

/-- One pass through the body of the loop `while( is.good())`. The variable `s` is
declared inside the body in one overload and before the loop in the other:
`declare` gives the value it has when `get` is called. The lines `line_fail` and
`line_bad` are those of the two `throw`. -/
def read_input.body (ng : std.num_get) (FILE : String) (line_fail line_bad : Int)
    (declare : Char → Char) (st : read_input.state) :
    Except spectral.Message read_input.state := do
  let (is, s) := st.is.get (declare st.s)
  let st ←
    if s = '=' then
      let (is, read) := is.extract ng st.read
      let para := st.para ++ [read]
      if is.fail then
        throw ⟨"Error while reading parameter. Is there a character behind = ?\n", FILE,
          line_fail⟩
      else pure (⟨is, s, read, para⟩ : read_input.state)
    else pure (⟨is, s, st.read, st.para⟩ : read_input.state)
  if st.is.bad then
    throw ⟨"Error while reading file. File corrupted\n", FILE, line_bad⟩
  pure st

/-- The loop `while( is.good())` followed by `return para`, with a bound on the
number of passes; `none` is a loop that is still running when the bound is spent. -/
def read_input.loop (ng : std.num_get) (FILE : String) (line_fail line_bad : Int)
    (declare : Char → Char) : ℕ → read_input.state → Option (Except spectral.Message (List ℚ))
  | 0, _ => none
  | fuel + 1, st =>
    if st.is.good then
      match read_input.body ng FILE line_fail line_bad declare st with
      | .error m => some (.error m)
      | .ok st => read_input.loop ng FILE line_fail line_bad declare fuel st
    else some (.ok st.para)

/-- The function `read_input( const char* filename)`. The file system `fs` gives the
text of the files that can be opened; `s0` and `read0` are the values that the
variables `s` and `read` have before anything is assigned to them. -/
def read_input_file (ng : std.num_get) (FILE : String) (fs : String → Option (List Char))
    (s0 : Char) (read0 : ℚ) (filename : String) : Option (Except spectral.Message (List ℚ)) :=
  let para : List ℚ := [-1]
  match fs filename with
  | none => some (.error ⟨"Error opening file \x27" ++ filename ++ "\x27", FILE, 34⟩)
  | some text =>
    read_input.loop ng FILE 44 47 id (text.length + 2) ⟨std.istream.on text, s0, read0, para⟩

/-- The function `read_input( const std::string& file)`: the stream is built from
`file.data()`. -/
def read_input (ng : std.num_get) (FILE : String) (s0 : Char) (read0 : ℚ) (file : List Char) :
    Option (Except spectral.Message (List ℚ)) :=
  let para : List ℚ := [-1]
  let is := std.istream.on (std.c_str file)
  read_input.loop ng FILE 107 110 (fun _ => s0) ((std.c_str file).length + 2)
    ⟨is, s0, read0, para⟩

/-- The parameters that the documentation of `read_input` describes: one for every
character `=` of the text, in the order of the text, each the number that stands
right behind that `=`, after white space. -/
def spec.number_behind (ng : std.num_get) (rest : List Char) : Option ℚ :=
  match rest.dropWhile std.isspace with
  | [] => none
  | c :: cs => (ng.scan (c :: cs)).1

/-- The list of the parameters of a text. -/
def spec.parameters (ng : std.num_get) : List Char → List (Option ℚ)
  | [] => []
  | c :: rest =>
    if c = '=' then spec.number_behind ng rest :: spec.parameters ng rest
    else spec.parameters ng rest

/-- The value of a sequence of decimal digits. -/
def scenario.natValue (ds : List Char) : ℕ :=
  ds.foldl (fun n c => 10 * n + (c.toNat - '0'.toNat)) 0

/-- A reader of decimal numbers: a sign, digits, a point, digits; it stands for
`num_get` on texts that hold no other notation of a number. -/
def scenario.decimal : std.num_get where
  scan buf :=
    let signed : Bool × List Char :=
      match buf with
      | '-' :: r => (true, r)
      | '+' :: r => (false, r)
      | _ => (false, buf)
    let ip := signed.2.takeWhile Char.isDigit
    let frac : List Char × List Char :=
      match signed.2.dropWhile Char.isDigit with
      | '.' :: r => (r.takeWhile Char.isDigit, r.dropWhile Char.isDigit)
      | unread => ([], unread)
    if ip = [] ∧ frac.1 = [] then (none, frac.2)
    else (some ((if signed.1 then -1 else 1) *
      ((scenario.natValue ip : ℚ) + (scenario.natValue frac.1 : ℚ) / 10 ^ frac.1.length)),
      frac.2)

/-- A text with a character `NUL` before its only parameter. -/
def scenario.nul_text : List Char := ['a', Char.ofNat 0, '=', '1']

/-- A file system that holds the text `nul_text` under every name. -/
def scenario.fs : String → Option (List Char) := fun _ => some scenario.nul_text

end file

/-! ## A species of negative charge

The scenario with `a_i = mu_i = -1`: the product `a_i mu_i` is positive and
`tau_i mu_i` is negative, so the denominator of `gamma1_i` vanishes at `laplace = -2`. -/

namespace toefl

/-- The parameters of the scenario with `a = mu = -1` for both species. -/
def scenario.negative : Physical :=
  { scenario.phys with a := fun _ => -1, mu := fun _ => -1 }

end toefl

/-! ## `file.h`: the label of a time

The label is written to a `std::stringstream`. The facet `num_put` writes an
`unsigned` as its decimal digits, filled on the left to the width that `setw` set for
this one output. The conversion of a `double` to `unsigned` truncates; outside the
range of `unsigned`, of 32 bits, its behaviour is undefined. The arithmetic of `double`
is idealised as that of the rationals. -/

namespace std

/-- The largest `unsigned`. -/
def UINT_MAX : ℕ := 2 ^ 32 - 1

/-- The function `floor` of `<cmath>`. -/
def floor (x : ℚ) : ℚ := (⌊x⌋ : ℤ)

/-- The conversion `(unsigned)x` of a `double`: the value truncated toward zero where
that is an `unsigned`; elsewhere the behaviour is undefined and the model has no
value. -/
def to_unsigned (x : ℚ) : Option ℕ :=
  let t : ℤ := if 0 ≤ x then ⌊x⌋ else ⌈x⌉
  if 0 ≤ t ∧ t ≤ (UINT_MAX : ℤ) then some t.toNat else none

/-- The digits that `num_put` writes for an `unsigned`: the decimal digits from the
most significant one, a single `0` for zero. -/
def num_put.digits (n : ℕ) : List Char :=
  if n = 0 then ['0'] else ((Nat.digits 10 n).map Nat.digitChar).reverse

/-- The characters of `os << std::setw( width) << std::right << n` on a stream with the
fill character `fill`. -/
def num_put.put (fill : Char) (width : ℕ) (n : ℕ) : List Char :=
  List.leftpad width fill (num_put.digits n)

end std

namespace file

/-- The function `setTime( time)`. -/
def setTime (time : ℚ) : Option (List Char) := do
  let title : List Char := []
  let title := title ++ ['t', '=']
  let fill := '0'
  let whole ← std.to_unsigned (std.floor time)
  let title := title ++ std.num_put.put fill 6 whole
  let title := title ++ ['.']
  let micro ← std.to_unsigned ((time - std.floor time) * 1000000)
  let title := title ++ std.num_put.put fill 6 micro
  pure title

/-- The function `getTime( s)`: the element `[1]` of the vector that `read_input`
returns. An index outside the vector is undefined behaviour, and the model has no
value there. -/
def getTime (ng : std.num_get) (FILE : String) (s0 : Char) (read0 : ℚ) (s : List Char) :
    Option (Except spectral.Message ℚ) :=
  match read_input ng FILE s0 read0 s with
  | none => none
  | some (.error m) => some (.error m)
  | some (.ok para) => para[1]?.map .ok

/-- What the standard says of `num_get` on digits, a point and digits: all of them
are read, and the value is the decimal number that they write. -/
def spec.reads_decimal (ng : std.num_get) : Prop :=
  ∀ ip fp : List Char, ip ≠ [] → (∀ c ∈ ip, c.isDigit = true) →
    (∀ c ∈ fp, c.isDigit = true) →
    ng.scan (ip ++ '.' :: fp)
      = (some ((scenario.natValue ip : ℚ) + (scenario.natValue fp : ℚ) / 10 ^ fp.length), [])

end file

/-! ## Padding: the three disciplines -/

namespace spectral

theorem size_t_sub_mod_two (m : ℕ) (hm : m < size_t.modulus) :
    size_t.sub m (size_t.mod m 2) = m - m % 2 := by
  simp only [size_t.sub, size_t.mod, size_t.modulus] at *
  norm_num at *
  omega

theorem columns_dft_eq (m : ℕ) (hm : m < size_t.modulus) :
    TotalNumberOf.columns .TL_DFT m = (m - m % 2 + 2) % size_t.modulus := by
  simp only [TotalNumberOf.columns, size_t_sub_mod_two m hm, size_t.add]

/-- C8: for the discipline `TL_DFT` and all `size_t` values `rows` and `cols`,
`columns( cols)` is `cols - cols % 2 + 2` and `elements( rows, cols)` is
`rows * columns( cols)`, both in `size_t` arithmetic (modulo `2 ^ 64`); the padding
`columns( cols) - cols` is `2 - cols % 2`. Where `cols + 2` and the product do not
wrap, both equations hold among the natural numbers. -/
theorem padding_dft (rows cols : ℕ) (hc : cols < size_t.modulus) :
    TotalNumberOf.columns .TL_DFT cols = (cols - cols % 2 + 2) % size_t.modulus ∧
    size_t.sub (TotalNumberOf.columns .TL_DFT cols) cols = 2 - cols % 2 ∧
    TotalNumberOf.elements .TL_DFT rows cols
      = (rows * TotalNumberOf.columns .TL_DFT cols) % size_t.modulus ∧
    (cols + 2 < size_t.modulus →
      TotalNumberOf.columns .TL_DFT cols = cols + (2 - cols % 2)) ∧
    (cols + 2 < size_t.modulus → rows * (cols + (2 - cols % 2)) < size_t.modulus →
      TotalNumberOf.elements .TL_DFT rows cols = rows * (cols + (2 - cols % 2))) := by
  have hcol := columns_dft_eq cols hc
  have hsub := size_t_sub_mod_two cols hc
  have hnowrap : cols + 2 < size_t.modulus →
      (cols - cols % 2 + 2) % size_t.modulus = cols + (2 - cols % 2) := by
    intro h
    rw [Nat.mod_eq_of_lt (by omega)]
    omega
  refine ⟨hcol, ?_, ?_, ?_, ?_⟩
  · rw [hcol]
    simp only [size_t.sub, size_t.modulus] at *
    norm_num at *
    omega
  · simp only [TotalNumberOf.elements, TotalNumberOf.columns, size_t.mul, size_t.add,
      Nat.mul_mod_mod]
  · intro h
    rw [hcol, hnowrap h]
  · intro h hprod
    simp only [TotalNumberOf.elements, size_t.mul, size_t.add, hsub, hnowrap h]
    exact Nat.mod_eq_of_lt hprod

theorem padding_dft_witness :
    5 < size_t.modulus ∧
    TotalNumberOf.columns .TL_DFT 5 = (5 - 5 % 2 + 2) % size_t.modulus ∧
    size_t.sub (TotalNumberOf.columns .TL_DFT 5) 5 = 2 - 5 % 2 ∧
    TotalNumberOf.elements .TL_DFT 3 5
      = (3 * TotalNumberOf.columns .TL_DFT 5) % size_t.modulus ∧
    TotalNumberOf.columns .TL_DFT 5 = 5 + (2 - 5 % 2) ∧
    TotalNumberOf.elements .TL_DFT 3 5 = 3 * (5 + (2 - 5 % 2)) :=
  have h := padding_dft 3 5 (by decide)
  ⟨by decide, h.1, h.2.1, h.2.2.1, h.2.2.2.1 (by decide),
    h.2.2.2.2 (by decide) (by decide)⟩

/-- C9: for the discipline `TL_DRT_DFT` and all `size_t` values `rows` and `cols`,
`columns( cols)` is `cols` and `elements( rows, cols)` is
`cols * (rows - rows % 2 + 2)` in `size_t` arithmetic (modulo `2 ^ 64`): the
`2 - rows % 2` extra lines stand at the end of the matrix. Where `rows + 2` and the
product do not wrap, the equation holds among the natural numbers. -/
theorem padding_drt_dft (rows cols : ℕ) (hr : rows < size_t.modulus) :
    TotalNumberOf.columns .TL_DRT_DFT cols = cols ∧
    TotalNumberOf.elements .TL_DRT_DFT rows cols
      = (cols * ((rows - rows % 2 + 2) % size_t.modulus)) % size_t.modulus ∧
    size_t.sub ((rows - rows % 2 + 2) % size_t.modulus) rows = 2 - rows % 2 ∧
    (rows + 2 < size_t.modulus → cols * (rows + (2 - rows % 2)) < size_t.modulus →
      TotalNumberOf.elements .TL_DRT_DFT rows cols = cols * (rows + (2 - rows % 2))) := by
  have hsub := size_t_sub_mod_two rows hr
  have hnowrap : rows + 2 < size_t.modulus →
      (rows - rows % 2 + 2) % size_t.modulus = rows + (2 - rows % 2) := by
    intro h
    rw [Nat.mod_eq_of_lt (by omega)]
    omega
  refine ⟨rfl, ?_, ?_, ?_⟩
  · simp only [TotalNumberOf.elements, size_t.mul, size_t.add, hsub]
  · simp only [size_t.sub, size_t.modulus] at *
    norm_num at *
    omega
  · intro h hprod
    simp only [TotalNumberOf.elements, size_t.mul, size_t.add, hsub, hnowrap h]
    exact Nat.mod_eq_of_lt hprod

theorem padding_drt_dft_witness :
    3 < size_t.modulus ∧
    TotalNumberOf.columns .TL_DRT_DFT 5 = 5 ∧
    TotalNumberOf.elements .TL_DRT_DFT 3 5
      = (5 * ((3 - 3 % 2 + 2) % size_t.modulus)) % size_t.modulus ∧
    size_t.sub ((3 - 3 % 2 + 2) % size_t.modulus) 3 = 2 - 3 % 2 ∧
    TotalNumberOf.elements .TL_DRT_DFT 3 5 = 5 * (3 + (2 - 3 % 2)) :=
  have h := padding_drt_dft 3 5 (by decide)
  ⟨by decide, h.1, h.2.1, h.2.2.1, h.2.2.2 (by decide) (by decide)⟩

/-- C10: for the discipline `TL_NONE` the allocated shape is the logical shape:
`columns( cols)` is `cols` and `elements( rows, cols)` is `rows * cols` in `size_t`
arithmetic (modulo `2 ^ 64`), hence `rows * cols` among the natural numbers where
the product does not wrap. -/
theorem padding_none (rows cols : ℕ) :
    TotalNumberOf.columns .TL_NONE cols = cols ∧
    TotalNumberOf.elements .TL_NONE rows cols = (rows * cols) % size_t.modulus ∧
    (rows * cols < size_t.modulus →
      TotalNumberOf.elements .TL_NONE rows cols = rows * cols) :=
  ⟨rfl, rfl, fun h => Nat.mod_eq_of_lt h⟩

theorem padding_none_witness :
    TotalNumberOf.columns .TL_NONE 5 = 5 ∧
    TotalNumberOf.elements .TL_NONE 3 5 = (3 * 5) % size_t.modulus ∧
    TotalNumberOf.elements .TL_NONE 3 5 = 3 * 5 :=
  have h := padding_none 3 5
  ⟨h.1, h.2.1, h.2.2 (by decide)⟩

end spectral

/-! ## The number model: computation rules -/

namespace toefl

@[simp] theorem double.fin_add_fin (a b : ℚ) :
    (double.fin a + double.fin b : double) = double.fin (a + b) := rfl

@[simp] theorem double.fin_sub_fin (a b : ℚ) :
    (double.fin a - double.fin b : double) = double.fin (a - b) := rfl

@[simp] theorem double.fin_mul_fin (a b : ℚ) :
    (double.fin a * double.fin b : double) = double.fin (a * b) := rfl

@[simp] theorem double.neg_fin (a : ℚ) : (-double.fin a : double) = double.fin (-a) := rfl

theorem double.fin_div (a b : ℚ) :
    (double.fin a / b : double) = if b = 0 then double.nonfinite else double.fin (a / b) :=
  rfl

theorem double.fin_div_of_ne (a b : ℚ) (hb : b ≠ 0) :
    (double.fin a / b : double) = double.fin (a / b) := by
  rw [double.fin_div, if_neg hb]

@[simp] theorem double.nonfinite_div (b : ℚ) :
    (double.nonfinite / b : double) = double.nonfinite := rfl

theorem double.ofNat_eq (n : ℕ) [n.AtLeastTwo] :
    (OfNat.ofNat n : double) = double.fin (OfNat.ofNat n) := by
  show double.fin ((OfNat.ofNat n : ℕ) : ℚ) = _
  rfl

@[simp] theorem double.one_eq : (1 : double) = double.fin 1 := by
  show double.fin ((1 : ℕ) : ℚ) = _
  rw [Nat.cast_one]

@[simp] theorem double.zero_eq : (0 : double) = double.fin 0 := by
  show double.fin ((0 : ℕ) : ℚ) = _
  rw [Nat.cast_zero]

/-- The closure writes both elements: its result does not depend on the array it is
handed. -/
theorem Poisson.operator2_ok (b : Build) (p : Poisson) (c : std.array 2) (laplace : ℚ)
    (hl : laplace ≠ 0) :
    p.operator2 b c laplace = .ok (fun k =>
      if k = 0 then (1 : double) / (p.a_i * p.mu_i * laplace)
      else ((-p.a_i : ℚ) : double) * p.gamma1_i laplace / (p.a_i * p.mu_i * laplace)) := by
  unfold Poisson.operator2
  rw [if_neg (fun h => hl h.2)]
  show Except.ok _ = Except.ok _
  congr 1
  funext k
  fin_cases k <;> simp [std.array.set]

/-- The closure with impurities writes the three elements. -/
theorem Poisson.operator3_ok (b : Build) (p : Poisson) (c : std.array 3) (laplace : ℚ)
    (hl : laplace ≠ 0) :
    p.operator3 b c laplace = .ok (fun k =>
      if k = 0 then (1 : double) / ((p.a_i * p.mu_i + p.a_z * p.mu_z) * laplace)
      else if k = 1 then
        ((-p.a_i : ℚ) : double) * p.gamma1_i laplace
          / ((p.a_i * p.mu_i + p.a_z * p.mu_z) * laplace)
      else
        ((-p.a_z : ℚ) : double) * p.gamma1_z laplace
          / ((p.a_i * p.mu_i + p.a_z * p.mu_z) * laplace)) := by
  unfold Poisson.operator3
  rw [if_neg (fun h => hl h.2)]
  show Except.ok _ = Except.ok _
  congr 1
  funext k
  fin_cases k <;> simp [std.array.set]

end toefl

/-! ## The Poisson closure -/

namespace toefl

/-- C5: for ion parameters taken from index 0 of the `Physical` bundle and every
`laplace` with `rho = a_i mu_i laplace` not zero, the closure without impurities
returns, whatever the array held before, `c0 = 1 / rho`, a finite value, and
`c1 = -a_i gamma1_i(laplace) / rho`. -/
theorem closure2_coefficients (b : Build) (phys : Physical) (c : std.array 2) (laplace : ℚ)
    (hrho : phys.a 0 * phys.mu 0 * laplace ≠ 0) :
    ∃ phi : std.array 2,
      (Poisson.ctor phys).operator2 b c laplace = .ok phi ∧
      phi 0 = double.fin (1 / (phys.a 0 * phys.mu 0 * laplace)) ∧
      phi 1 = double.fin (-phys.a 0) * (Poisson.ctor phys).gamma1_i laplace
                / (phys.a 0 * phys.mu 0 * laplace) := by
  have hl : laplace ≠ 0 := fun h => hrho (by rw [h, mul_zero])
  refine ⟨_, Poisson.operator2_ok b (Poisson.ctor phys) c laplace hl, ?_, ?_⟩
  · simp only [Poisson.ctor, if_true, double.one_eq]
    exact double.fin_div_of_ne _ _ hrho
  · simp [Poisson.ctor]

theorem closure2_coefficients_witness :
    scenario.phys.a 0 * scenario.phys.mu 0 * (-4) ≠ 0 ∧
    ∃ phi : std.array 2,
      (Poisson.ctor scenario.phys).operator2 scenario.build
        (std.array.uninitialized 2) (-4) = .ok phi ∧
      phi 0 = double.fin (1 / (scenario.phys.a 0 * scenario.phys.mu 0 * (-4))) ∧
      phi 1 = double.fin (-scenario.phys.a 0) * (Poisson.ctor scenario.phys).gamma1_i (-4)
                / (scenario.phys.a 0 * scenario.phys.mu 0 * (-4)) :=
  ⟨by norm_num [scenario.phys],
    closure2_coefficients scenario.build scenario.phys (std.array.uninitialized 2) (-4)
      (by norm_num [scenario.phys])⟩

/-- C6: for every ion and impurity parameter set and every `laplace` with
`rho = (a_i mu_i + a_z mu_z) laplace` not zero, the closure with impurities returns,
whatever the array held before, `c0 = 1 / rho`, a finite value,
`c1 = -a_i gamma1_i(laplace) / rho` and `c2 = -a_z gamma1_z(laplace) / rho`. -/
theorem closure3_coefficients (b : Build) (phys : Physical) (c : std.array 3) (laplace : ℚ)
    (hrho : (phys.a 0 * phys.mu 0 + phys.a 1 * phys.mu 1) * laplace ≠ 0) :
    ∃ phi : std.array 3,
      (Poisson.ctor phys).operator3 b c laplace = .ok phi ∧
      phi 0 = double.fin (1 / ((phys.a 0 * phys.mu 0 + phys.a 1 * phys.mu 1) * laplace)) ∧
      phi 1 = double.fin (-phys.a 0) * (Poisson.ctor phys).gamma1_i laplace
                / ((phys.a 0 * phys.mu 0 + phys.a 1 * phys.mu 1) * laplace) ∧
      phi 2 = double.fin (-phys.a 1) * (Poisson.ctor phys).gamma1_z laplace
                / ((phys.a 0 * phys.mu 0 + phys.a 1 * phys.mu 1) * laplace) := by
  have hl : laplace ≠ 0 := fun h => hrho (by rw [h, mul_zero])
  refine ⟨_, Poisson.operator3_ok b (Poisson.ctor phys) c laplace hl, ?_, ?_, ?_⟩
  · simp only [Poisson.ctor, if_true, double.one_eq]
    exact double.fin_div_of_ne _ _ hrho
  · simp [Poisson.ctor]
  · simp [Poisson.ctor]

theorem closure3_coefficients_witness :
    (scenario.phys.a 0 * scenario.phys.mu 0 + scenario.phys.a 1 * scenario.phys.mu 1)
      * (-4) ≠ 0 ∧
    ∃ phi : std.array 3,
      (Poisson.ctor scenario.phys).operator3 scenario.build
        (std.array.uninitialized 3) (-4) = .ok phi ∧
      phi 0 = double.fin (1 / ((scenario.phys.a 0 * scenario.phys.mu 0
                + scenario.phys.a 1 * scenario.phys.mu 1) * (-4))) ∧
      phi 1 = double.fin (-scenario.phys.a 0) * (Poisson.ctor scenario.phys).gamma1_i (-4)
                / ((scenario.phys.a 0 * scenario.phys.mu 0
                    + scenario.phys.a 1 * scenario.phys.mu 1) * (-4)) ∧
      phi 2 = double.fin (-scenario.phys.a 1) * (Poisson.ctor scenario.phys).gamma1_z (-4)
                / ((scenario.phys.a 0 * scenario.phys.mu 0
                    + scenario.phys.a 1 * scenario.phys.mu 1) * (-4)) :=
  ⟨by norm_num [scenario.phys],
    closure3_coefficients scenario.build scenario.phys (std.array.uninitialized 3) (-4)
      (by norm_num [scenario.phys])⟩

/-- C7: for every `laplace`, `gamma1_i( laplace)` is `1 / (1 - 0.5 tau_i mu_i laplace)`
with the `tau` and `mu` of species 0, and `gamma1_z( laplace)` is
`1 / (1 - 0.5 tau_z mu_z laplace)` with those of species 1: the finite quotient where
the denominator is not zero, a non-finite value where it is. -/
theorem gamma1_formula (phys : Physical) (laplace : ℚ) :
    (Poisson.ctor phys).gamma1_i laplace = spec.gamma1 (phys.tau 0) (phys.mu 0) laplace ∧
    (Poisson.ctor phys).gamma1_z laplace = spec.gamma1 (phys.tau 1) (phys.mu 1) laplace := by
  have half : (0.5 : ℚ) = 1 / 2 := by norm_num
  constructor
  · simp only [Poisson.gamma1_i, Poisson.ctor, spec.gamma1, double.one_eq, double.fin_div,
      half]
  · simp only [Poisson.gamma1_z, Poisson.ctor, spec.gamma1, double.one_eq, double.fin_div,
      half]

end toefl

/-! ## The operator assembly -/

namespace toefl

/-- The assembly away from the zero mode, in the members of the object: the closure
returns, and all four entries are written. -/
theorem Equations.operator2_of_ne (b : Build) (e : Equations) (c : QuadMat 2)
    (laplace : ℚ) (dy : complex) (hl : laplace ≠ 0) :
    ∃ phi : std.array 2, ∃ M : QuadMat 2,
      (∀ c0, e.p.operator2 b c0 laplace = .ok phi) ∧
      e.operator2 b c laplace dy = .ok M ∧
      M 0 0 = spec.P e.g_e e.kappa_y (spec.d_eff e.mhw e.dd dy) dy * phi 0
                - spec.curv e.kappa_y dy - (spec.d_eff e.mhw e.dd dy : double)
                - (spec.visc e.nu laplace : double) ∧
      M 0 1 = spec.P e.g_e e.kappa_y (spec.d_eff e.mhw e.dd dy) dy * phi 1 ∧
      M 1 0 = spec.Q e.g_i e.kappa_y dy (e.p.gamma1_i laplace) * phi 0 ∧
      M 1 1 = spec.Q e.g_i e.kappa_y dy (e.p.gamma1_i laplace) * phi 1
                + (e.tau_i : double) * spec.curv e.kappa_y dy
                - (spec.visc e.nu laplace : double) := by
  refine ⟨_, ?M, fun c0 => Poisson.operator2_ok b e.p c0 laplace hl, ?h, ?rest⟩
  case h =>
    unfold Equations.operator2
    simp only [if_neg hl, Poisson.operator2_ok b e.p _ laplace hl]
    exact rfl
  case rest =>
    refine ⟨?_, ?_, ?_, ?_⟩
    · simp [QuadMat.set, spec.P, spec.curv, spec.d_eff, spec.visc, pow]
    · simp [QuadMat.set, spec.P, spec.curv, spec.d_eff]
    · simp [QuadMat.set, spec.Q, spec.curv]
    · simp [QuadMat.set, spec.Q, spec.curv, spec.visc, pow]

/-- The assembly with impurities away from the zero mode, in the members of the
object: the closure returns, and all nine entries are written. -/
theorem Equations.operator3_of_ne (b : Build) (e : Equations) (c : QuadMat 3)
    (laplace : ℚ) (dy : complex) (hl : laplace ≠ 0) :
    ∃ phi : std.array 3, ∃ M : QuadMat 3,
      (∀ c0, e.p.operator3 b c0 laplace = .ok phi) ∧
      e.operator3 b c laplace dy = .ok M ∧
      M 0 0 = spec.P e.g_e e.kappa_y (spec.d_eff e.mhw e.dd dy) dy * phi 0
                - spec.curv e.kappa_y dy - (spec.d_eff e.mhw e.dd dy : double)
                - (spec.visc e.nu laplace : double) ∧
      M 0 1 = spec.P e.g_e e.kappa_y (spec.d_eff e.mhw e.dd dy) dy * phi 1 ∧
      M 0 2 = spec.P e.g_e e.kappa_y (spec.d_eff e.mhw e.dd dy) dy * phi 2 ∧
      M 1 0 = spec.Q e.g_i e.kappa_y dy (e.p.gamma1_i laplace) * phi 0 ∧
      M 1 1 = spec.Q e.g_i e.kappa_y dy (e.p.gamma1_i laplace) * phi 1
                + (e.tau_i : double) * spec.curv e.kappa_y dy
                - (spec.visc e.nu laplace : double) ∧
      M 1 2 = spec.Q e.g_i e.kappa_y dy (e.p.gamma1_i laplace) * phi 2 ∧
      M 2 0 = spec.R e.g_z e.kappa_y dy (e.p.gamma1_z laplace) * phi 0 ∧
      M 2 1 = spec.R e.g_z e.kappa_y dy (e.p.gamma1_z laplace) * phi 1 ∧
      M 2 2 = spec.R e.g_z e.kappa_y dy (e.p.gamma1_z laplace) * phi 2
                + (e.tau_z : double) * spec.curv e.kappa_y dy
                - (spec.visc e.nu laplace : double) := by
  refine ⟨_, ?M, fun c0 => Poisson.operator3_ok b e.p c0 laplace hl, ?h, ?rest⟩
  case h =>
    unfold Equations.operator3
    simp only [if_neg hl, Poisson.operator3_ok b e.p _ laplace hl]
    exact rfl
  case rest =>
    refine ⟨?_, ?_, ?_, ?_, ?_, ?_, ?_, ?_, ?_⟩
    · simp [QuadMat.set, spec.P, spec.curv, spec.d_eff, spec.visc, pow]
    · simp [QuadMat.set, spec.P, spec.curv, spec.d_eff]
    · simp [QuadMat.set, spec.P, spec.curv, spec.d_eff]
    · simp [QuadMat.set, spec.Q, spec.curv]
    · simp [QuadMat.set, spec.Q, spec.curv, spec.visc, pow]
    · simp [QuadMat.set, spec.Q, spec.curv]
    · simp [QuadMat.set, spec.R, spec.curv]
    · simp [QuadMat.set, spec.R, spec.curv]
    · simp [QuadMat.set, spec.R, spec.curv, spec.visc, pow]

/-- The assembly at the zero mode: the closure is not called, and the four entries
are written. -/
theorem Equations.operator2_zero (b : Build) (e : Equations) (c : QuadMat 2)
    (dy : complex) :
    e.operator2 b c 0 dy = .ok (fun i j =>
      if i = 0 ∧ j = 0 then complex.ofDouble (double.fin (-spec.d_eff e.mhw e.dd dy))
      else complex.ofDouble 0) := by
  unfold Equations.operator2
  simp only [if_true]
  show Except.ok _ = Except.ok _
  congr 1
  funext i j
  fin_cases i <;> fin_cases j <;> simp [QuadMat.set, spec.d_eff]

/-- The assembly with impurities at the zero mode: the closure is not called, and the
nine entries are written. -/
theorem Equations.operator3_zero (b : Build) (e : Equations) (c : QuadMat 3)
    (dy : complex) :
    e.operator3 b c 0 dy = .ok (fun i j =>
      if i = 0 ∧ j = 0 then complex.ofDouble (double.fin (-spec.d_eff e.mhw e.dd dy))
      else complex.ofDouble 0) := by
  unfold Equations.operator3
  simp only [if_true]
  show Except.ok _ = Except.ok _
  congr 1
  funext i j
  fin_cases i <;> fin_cases j <;> simp [QuadMat.set, spec.d_eff]

/-- C1: for every parameter set and every mode with `laplace != 0`, the assembly
without impurities returns and writes `M[e,e] = P phi0 - curv - d_eff - visc`,
`M[e,i] = P phi1`, `M[i,e] = Q phi0` and `M[i,i] = Q phi1 + tau_i curv - visc`, where
`(phi0, phi1)` is what the closure without impurities returns at `laplace`,
`curv = kappa dy`, `P = g_e dy + curv + d_eff`,
`Q = g_i dy gamma1_i(laplace) + curv gamma1_i(laplace)`, `visc = nu (-laplace)^2`, and
`d_eff` is `0` if the modified flag is set and `dy == 0`, else `d`. -/
theorem assembly2_general (b : Build) (phys : Physical) (mhw : Bool) (c : QuadMat 2)
    (laplace : ℚ) (dy : complex) (hl : laplace ≠ 0) :
    ∃ phi : std.array 2, ∃ M : QuadMat 2,
      (∀ c0, (Poisson.ctor phys).operator2 b c0 laplace = .ok phi) ∧
      (Equations.ctor phys mhw).operator2 b c laplace dy = .ok M ∧
      M 0 0 = spec.P phys.g_e phys.kappa (spec.d_eff mhw phys.d dy) dy * phi 0
                - spec.curv phys.kappa dy - (spec.d_eff mhw phys.d dy : double)
                - (spec.visc phys.nu laplace : double) ∧
      M 0 1 = spec.P phys.g_e phys.kappa (spec.d_eff mhw phys.d dy) dy * phi 1 ∧
      M 1 0 = spec.Q (phys.g 0) phys.kappa dy ((Poisson.ctor phys).gamma1_i laplace) * phi 0 ∧
      M 1 1 = spec.Q (phys.g 0) phys.kappa dy ((Poisson.ctor phys).gamma1_i laplace) * phi 1
                + (phys.tau 0 : double) * spec.curv phys.kappa dy
                - (spec.visc phys.nu laplace : double) :=
  Equations.operator2_of_ne b (Equations.ctor phys mhw) c laplace dy hl

theorem assembly2_general_witness :
    (-4 : ℚ) ≠ 0 ∧
    ∃ phi : std.array 2, ∃ M : QuadMat 2,
      (∀ c0, (Poisson.ctor scenario.phys).operator2 scenario.build c0 (-4) = .ok phi) ∧
      (Equations.ctor scenario.phys false).operator2 scenario.build (scenario.coeff 2) (-4)
        scenario.dy = .ok M ∧
      M 0 0 = spec.P scenario.phys.g_e scenario.phys.kappa
                  (spec.d_eff false scenario.phys.d scenario.dy) scenario.dy * phi 0
                - spec.curv scenario.phys.kappa scenario.dy
                - (spec.d_eff false scenario.phys.d scenario.dy : double)
                - (spec.visc scenario.phys.nu (-4) : double) ∧
      M 0 1 = spec.P scenario.phys.g_e scenario.phys.kappa
                  (spec.d_eff false scenario.phys.d scenario.dy) scenario.dy * phi 1 ∧
      M 1 0 = spec.Q (scenario.phys.g 0) scenario.phys.kappa scenario.dy
                  ((Poisson.ctor scenario.phys).gamma1_i (-4)) * phi 0 ∧
      M 1 1 = spec.Q (scenario.phys.g 0) scenario.phys.kappa scenario.dy
                  ((Poisson.ctor scenario.phys).gamma1_i (-4)) * phi 1
                + (scenario.phys.tau 0 : double) * spec.curv scenario.phys.kappa scenario.dy
                - (spec.visc scenario.phys.nu (-4) : double) :=
  ⟨by decide,
    assembly2_general scenario.build scenario.phys false (scenario.coeff 2) (-4) scenario.dy
      (by decide)⟩

/-- C2: for every parameter set and every mode with `laplace != 0`, the assembly with
impurities returns and writes the matrix whose row `k` is
`(X_k phi0, X_k phi1, X_k phi2)` with `X = (P, Q, R)`, plus on the diagonal
`- curv - d_eff - visc` for the electrons, `tau_i curv - visc` for the ions and
`tau_z curv - visc` for the impurities, where `(phi0, phi1, phi2)` is what the closure
with impurities returns, `R = g_z dy gamma1_z(laplace) + curv gamma1_z(laplace)`, and
`P`, `Q`, `curv`, `visc`, `d_eff` are those of the assembly without impurities. -/
theorem assembly3_general (b : Build) (phys : Physical) (mhw : Bool) (c : QuadMat 3)
    (laplace : ℚ) (dy : complex) (hl : laplace ≠ 0) :
    ∃ phi : std.array 3, ∃ M : QuadMat 3,
      (∀ c0, (Poisson.ctor phys).operator3 b c0 laplace = .ok phi) ∧
      (Equations.ctor phys mhw).operator3 b c laplace dy = .ok M ∧
      M 0 0 = spec.P phys.g_e phys.kappa (spec.d_eff mhw phys.d dy) dy * phi 0
                - spec.curv phys.kappa dy - (spec.d_eff mhw phys.d dy : double)
                - (spec.visc phys.nu laplace : double) ∧
      M 0 1 = spec.P phys.g_e phys.kappa (spec.d_eff mhw phys.d dy) dy * phi 1 ∧
      M 0 2 = spec.P phys.g_e phys.kappa (spec.d_eff mhw phys.d dy) dy * phi 2 ∧
      M 1 0 = spec.Q (phys.g 0) phys.kappa dy ((Poisson.ctor phys).gamma1_i laplace) * phi 0 ∧
      M 1 1 = spec.Q (phys.g 0) phys.kappa dy ((Poisson.ctor phys).gamma1_i laplace) * phi 1
                + (phys.tau 0 : double) * spec.curv phys.kappa dy
                - (spec.visc phys.nu laplace : double) ∧
      M 1 2 = spec.Q (phys.g 0) phys.kappa dy ((Poisson.ctor phys).gamma1_i laplace) * phi 2 ∧
      M 2 0 = spec.R (phys.g 1) phys.kappa dy ((Poisson.ctor phys).gamma1_z laplace) * phi 0 ∧
      M 2 1 = spec.R (phys.g 1) phys.kappa dy ((Poisson.ctor phys).gamma1_z laplace) * phi 1 ∧
      M 2 2 = spec.R (phys.g 1) phys.kappa dy ((Poisson.ctor phys).gamma1_z laplace) * phi 2
                + (phys.tau 1 : double) * spec.curv phys.kappa dy
                - (spec.visc phys.nu laplace : double) :=
  Equations.operator3_of_ne b (Equations.ctor phys mhw) c laplace dy hl

theorem assembly3_general_witness :
    (-4 : ℚ) ≠ 0 ∧
    ∃ phi : std.array 3, ∃ M : QuadMat 3,
      (∀ c0, (Poisson.ctor scenario.phys).operator3 scenario.build c0 (-4) = .ok phi) ∧
      (Equations.ctor scenario.phys false).operator3 scenario.build (scenario.coeff 3) (-4)
        scenario.dy = .ok M ∧
      M 0 0 = spec.P scenario.phys.g_e scenario.phys.kappa
                  (spec.d_eff false scenario.phys.d scenario.dy) scenario.dy * phi 0
                - spec.curv scenario.phys.kappa scenario.dy
                - (spec.d_eff false scenario.phys.d scenario.dy : double)
                - (spec.visc scenario.phys.nu (-4) : double) ∧
      M 0 1 = spec.P scenario.phys.g_e scenario.phys.kappa
                  (spec.d_eff false scenario.phys.d scenario.dy) scenario.dy * phi 1 ∧
      M 0 2 = spec.P scenario.phys.g_e scenario.phys.kappa
                  (spec.d_eff false scenario.phys.d scenario.dy) scenario.dy * phi 2 ∧
      M 1 0 = spec.Q (scenario.phys.g 0) scenario.phys.kappa scenario.dy
                  ((Poisson.ctor scenario.phys).gamma1_i (-4)) * phi 0 ∧
      M 1 1 = spec.Q (scenario.phys.g 0) scenario.phys.kappa scenario.dy
                  ((Poisson.ctor scenario.phys).gamma1_i (-4)) * phi 1
                + (scenario.phys.tau 0 : double) * spec.curv scenario.phys.kappa scenario.dy
                - (spec.visc scenario.phys.nu (-4) : double) ∧
      M 1 2 = spec.Q (scenario.phys.g 0) scenario.phys.kappa scenario.dy
                  ((Poisson.ctor scenario.phys).gamma1_i (-4)) * phi 2 ∧
      M 2 0 = spec.R (scenario.phys.g 1) scenario.phys.kappa scenario.dy
                  ((Poisson.ctor scenario.phys).gamma1_z (-4)) * phi 0 ∧
      M 2 1 = spec.R (scenario.phys.g 1) scenario.phys.kappa scenario.dy
                  ((Poisson.ctor scenario.phys).gamma1_z (-4)) * phi 1 ∧
      M 2 2 = spec.R (scenario.phys.g 1) scenario.phys.kappa scenario.dy
                  ((Poisson.ctor scenario.phys).gamma1_z (-4)) * phi 2
                + (scenario.phys.tau 1 : double) * spec.curv scenario.phys.kappa scenario.dy
                - (spec.visc scenario.phys.nu (-4) : double) :=
  ⟨by decide,
    assembly3_general scenario.build scenario.phys false (scenario.coeff 3) (-4) scenario.dy
      (by decide)⟩

/-- C3: zero mode. For every parameter set and every `dy`, the assembly without and
with impurities at `laplace == 0` returns a matrix whose entries are all exactly `0`
except the (electron, electron) entry, which is `-d` when the modified flag is off or
`dy != 0`, and `0` when the modified flag is set and `dy == 0`. -/
theorem assembly_zero_mode (b : Build) (phys : Physical) (mhw : Bool) (c2 : QuadMat 2)
    (c3 : QuadMat 3) (dy : complex) :
    ∃ M2 : QuadMat 2, ∃ M3 : QuadMat 3,
      (Equations.ctor phys mhw).operator2 b c2 0 dy = .ok M2 ∧
      (Equations.ctor phys mhw).operator3 b c3 0 dy = .ok M3 ∧
      (∀ i j, M2 i j =
        if i = 0 ∧ j = 0 then
          (if mhw = true ∧ dy = complex.ofDouble 0 then complex.ofDouble 0
            else complex.ofDouble (double.fin (-phys.d)))
        else complex.ofDouble 0) ∧
      (∀ i j, M3 i j =
        if i = 0 ∧ j = 0 then
          (if mhw = true ∧ dy = complex.ofDouble 0 then complex.ofDouble 0
            else complex.ofDouble (double.fin (-phys.d)))
        else complex.ofDouble 0) := by
  refine ⟨_, _, Equations.operator2_zero b _ c2 dy, Equations.operator3_zero b _ c3 dy,
    ?_, ?_⟩
  · intro i j
    by_cases h : mhw = true ∧ dy = complex.ofDouble 0
    · simp only [spec.d_eff, Equations.ctor, if_pos h, neg_zero]
      simp only [double.zero_eq]
    · simp only [spec.d_eff, Equations.ctor, if_neg h]
  · intro i j
    by_cases h : mhw = true ∧ dy = complex.ofDouble 0
    · simp only [spec.d_eff, Equations.ctor, if_pos h, neg_zero]
      simp only [double.zero_eq]
    · simp only [spec.d_eff, Equations.ctor, if_neg h]

/-- The assembly reads the flag and the dissipation only through `d_eff`. -/
theorem Equations.operator2_congr (b : Build) (e e' : Equations) (c : QuadMat 2)
    (laplace : ℚ) (dy : complex)
    (hd : spec.d_eff e.mhw e.dd dy = spec.d_eff e'.mhw e'.dd dy) (hp : e.p = e'.p)
    (hnu : e.nu = e'.nu) (hge : e.g_e = e'.g_e) (hgi : e.g_i = e'.g_i)
    (hk : e.kappa_y = e'.kappa_y) (ht : e.tau_i = e'.tau_i) :
    e.operator2 b c laplace dy = e'.operator2 b c laplace dy := by
  unfold Equations.operator2
  simp only [spec.d_eff] at hd
  simp only [hd, hp, hnu, hge, hgi, hk, ht]

/-- The assembly with impurities reads the flag and the dissipation only through
`d_eff`. -/
theorem Equations.operator3_congr (b : Build) (e e' : Equations) (c : QuadMat 3)
    (laplace : ℚ) (dy : complex)
    (hd : spec.d_eff e.mhw e.dd dy = spec.d_eff e'.mhw e'.dd dy) (hp : e.p = e'.p)
    (hnu : e.nu = e'.nu) (hge : e.g_e = e'.g_e) (hgi : e.g_i = e'.g_i)
    (hgz : e.g_z = e'.g_z) (hk : e.kappa_y = e'.kappa_y) (ht : e.tau_i = e'.tau_i)
    (htz : e.tau_z = e'.tau_z) :
    e.operator3 b c laplace dy = e'.operator3 b c laplace dy := by
  unfold Equations.operator3
  simp only [spec.d_eff] at hd
  simp only [hd, hp, hnu, hge, hgi, hgz, hk, ht, htz]

theorem complex.ne_zero_of_part (dy : complex) (h : dy.re ≠ 0 ∨ dy.im ≠ 0) :
    dy ≠ complex.ofDouble 0 := by
  intro h0
  rw [h0] at h
  simp [complex.ofDouble] at h

/-- C4: the modified-variant rule as a statement on two runs, for the assembly
without and with impurities and every `(laplace, dy)`. (a) When `dy == 0`, the run
with the modified flag set gives what an otherwise identical instance gives with the
flag off and `d` replaced by `0`. (b) When `dy != 0` (real or imaginary part not
zero), the runs with the flag set and with the flag off give the same. -/
theorem modified_variant_two_runs (b : Build) (phys : Physical) (c2 : QuadMat 2)
    (c3 : QuadMat 3) (laplace : ℚ) (dy : complex) :
    (dy = complex.ofDouble 0 →
      (Equations.ctor phys true).operator2 b c2 laplace dy
        = (Equations.ctor { phys with d := 0 } false).operator2 b c2 laplace dy ∧
      (Equations.ctor phys true).operator3 b c3 laplace dy
        = (Equations.ctor { phys with d := 0 } false).operator3 b c3 laplace dy) ∧
    (dy.re ≠ 0 ∨ dy.im ≠ 0 →
      (Equations.ctor phys true).operator2 b c2 laplace dy
        = (Equations.ctor phys false).operator2 b c2 laplace dy ∧
      (Equations.ctor phys true).operator3 b c3 laplace dy
        = (Equations.ctor phys false).operator3 b c3 laplace dy) := by
  constructor
  · intro h
    constructor
    · apply Equations.operator2_congr <;> simp [spec.d_eff, Equations.ctor, Poisson.ctor, h]
    · apply Equations.operator3_congr <;> simp [spec.d_eff, Equations.ctor, Poisson.ctor, h]
  · intro h
    have h0 := complex.ne_zero_of_part dy h
    constructor
    · apply Equations.operator2_congr <;>
        simp only [spec.d_eff, Equations.ctor, h0, and_false, if_false]
    · apply Equations.operator3_congr <;>
        simp only [spec.d_eff, Equations.ctor, h0, and_false, if_false]

theorem modified_variant_two_runs_witness :
    (complex.ofDouble 0 = complex.ofDouble 0 ∧
      (Equations.ctor scenario.phys true).operator2 scenario.build (scenario.coeff 2) (-4)
          (complex.ofDouble 0)
        = (Equations.ctor { scenario.phys with d := 0 } false).operator2 scenario.build
            (scenario.coeff 2) (-4) (complex.ofDouble 0) ∧
      (Equations.ctor scenario.phys true).operator3 scenario.build (scenario.coeff 3) (-4)
          (complex.ofDouble 0)
        = (Equations.ctor { scenario.phys with d := 0 } false).operator3 scenario.build
            (scenario.coeff 3) (-4) (complex.ofDouble 0)) ∧
    ((scenario.dy.re ≠ 0 ∨ scenario.dy.im ≠ 0) ∧
      (Equations.ctor scenario.phys true).operator2 scenario.build (scenario.coeff 2) (-4)
          scenario.dy
        = (Equations.ctor scenario.phys false).operator2 scenario.build (scenario.coeff 2)
            (-4) scenario.dy ∧
      (Equations.ctor scenario.phys true).operator3 scenario.build (scenario.coeff 3) (-4)
          scenario.dy
        = (Equations.ctor scenario.phys false).operator3 scenario.build (scenario.coeff 3)
            (-4) scenario.dy) :=
  ⟨⟨rfl, (modified_variant_two_runs scenario.build scenario.phys (scenario.coeff 2)
      (scenario.coeff 3) (-4) (complex.ofDouble 0)).1 rfl⟩,
    ⟨Or.inr (by decide), (modified_variant_two_runs scenario.build scenario.phys
      (scenario.coeff 2) (scenario.coeff 3) (-4) scenario.dy).2 (Or.inr (by decide))⟩⟩

end toefl

/-! ## The end-to-end scenario and the impurity decoupling -/

namespace toefl

@[simp] theorem complex.double_mul_eq (x : double) (z : complex) :
    (x * z : complex) = ⟨z.re * x, z.im * x⟩ := rfl

@[simp] theorem complex.mul_double_eq (z : complex) (x : double) :
    (z * x : complex) = ⟨z.re * x, z.im * x⟩ := rfl

@[simp] theorem complex.add_eq (z w : complex) :
    (z + w : complex) = ⟨z.re + w.re, z.im + w.im⟩ := rfl

@[simp] theorem complex.sub_eq (z w : complex) :
    (z - w : complex) = ⟨z.re - w.re, z.im - w.im⟩ := rfl

@[simp] theorem complex.add_double_eq (z : complex) (x : double) :
    (z + x : complex) = ⟨z.re + x, z.im⟩ := rfl

@[simp] theorem complex.sub_double_eq (z : complex) (x : double) :
    (z - x : complex) = ⟨z.re - x, z.im⟩ := rfl

/-- The closure away from the zero mode returns the same array whatever it is handed;
an array that it returns for every input is that array. -/
theorem Poisson.operator2_unique (b : Build) (p : Poisson) (laplace : ℚ) (hl : laplace ≠ 0)
    (phi : std.array 2) (h : ∀ c0, p.operator2 b c0 laplace = .ok phi) :
    phi = fun k =>
      if k = 0 then (1 : double) / (p.a_i * p.mu_i * laplace)
      else ((-p.a_i : ℚ) : double) * p.gamma1_i laplace / (p.a_i * p.mu_i * laplace) := by
  have h1 := h (std.array.uninitialized 2)
  rw [Poisson.operator2_ok b p _ laplace hl] at h1
  exact (Except.ok.inj h1).symm

/-- The same for the closure with impurities. -/
theorem Poisson.operator3_unique (b : Build) (p : Poisson) (laplace : ℚ) (hl : laplace ≠ 0)
    (phi : std.array 3) (h : ∀ c0, p.operator3 b c0 laplace = .ok phi) :
    phi = fun k =>
      if k = 0 then (1 : double) / ((p.a_i * p.mu_i + p.a_z * p.mu_z) * laplace)
      else if k = 1 then
        ((-p.a_i : ℚ) : double) * p.gamma1_i laplace
          / ((p.a_i * p.mu_i + p.a_z * p.mu_z) * laplace)
      else
        ((-p.a_z : ℚ) : double) * p.gamma1_z laplace
          / ((p.a_i * p.mu_i + p.a_z * p.mu_z) * laplace) := by
  have h1 := h (std.array.uninitialized 3)
  rw [Poisson.operator3_ok b p _ laplace hl] at h1
  exact (Except.ok.inj h1).symm

/-- The assembly without impurities evaluated at the parameters of the spec,
section 8. -/
theorem Equations.operator2_at_scenario (b : Build) (phys : Physical) (mhw : Bool) (c : QuadMat 2)
    (ha : phys.a 0 = 1) (hmu : phys.mu 0 = 1) (htau : phys.tau 0 = 1)
    (hd : phys.d = 1 / 100) (hnu : phys.nu = 1 / 1000) (hk : phys.kappa = 1 / 10)
    (hge : phys.g_e = 1) (hgi : phys.g 0 = 1) :
    ∃ M : QuadMat 2,
      (Equations.ctor phys mhw).operator2 b c (-4) ⟨0, 2⟩ = .ok M ∧
      M 0 0 = ⟨double.fin (-57 / 2000), double.fin (-3 / 4)⟩ ∧
      M 0 1 = ⟨double.fin (1 / 1200), double.fin (11 / 60)⟩ ∧
      M 1 0 = ⟨double.fin 0, double.fin (-11 / 60)⟩ ∧
      M 1 1 = ⟨double.fin (-2 / 125), double.fin (47 / 180)⟩ := by
  have hl : (-4 : ℚ) ≠ 0 := by norm_num
  obtain ⟨phi, M, hphi, hM, h00, h01, h10, h11⟩ :=
    Equations.operator2_of_ne b (Equations.ctor phys mhw) c (-4) ⟨0, 2⟩ hl
  have hphi' := Poisson.operator2_unique b _ (-4) hl phi hphi
  refine ⟨M, hM, ?_, ?_, ?_, ?_⟩
  · rw [h00, hphi']
    simp [spec.P, spec.curv, spec.d_eff, spec.visc, Equations.ctor, Poisson.ctor,
      Poisson.gamma1_i, double.fin_div, double.ofNat_eq, ha, hmu, htau, hd, hnu, hk, hge, hgi,
      complex.ofDouble]
    norm_num [double.fin_div]
  · rw [h01, hphi']
    simp [spec.P, spec.curv, spec.d_eff, spec.visc, Equations.ctor, Poisson.ctor,
      Poisson.gamma1_i, double.fin_div, double.ofNat_eq, ha, hmu, htau, hd, hnu, hk, hge, hgi,
      complex.ofDouble]
    norm_num [double.fin_div]
  · rw [h10, hphi']
    simp [spec.Q, spec.curv, spec.d_eff, spec.visc, Equations.ctor, Poisson.ctor,
      Poisson.gamma1_i, double.fin_div, double.ofNat_eq, ha, hmu, htau, hd, hnu, hk, hge, hgi,
      complex.ofDouble]
    norm_num [double.fin_div]
  · rw [h11, hphi']
    simp [spec.Q, spec.curv, spec.d_eff, spec.visc, Equations.ctor, Poisson.ctor,
      Poisson.gamma1_i, double.fin_div, double.ofNat_eq, ha, hmu, htau, hd, hnu, hk, hge, hgi,
      complex.ofDouble]
    norm_num [double.fin_div]

/-- C11: end-to-end scenario. With `a_i = 1`, `mu_i = 1`, `tau_i = 1`, `d = 0.01`,
`nu = 0.001`, `kappa = 0.1`, `g_e = 1`, `g_i = 1` and the mode `laplace = -4`,
`dy = 2i`, the assembly without impurities returns `M[e,e] = -57/2000 - (3/4)i`,
`M[e,i] = 1/1200 + (11/60)i`, `M[i,e] = -(11/60)i` and `M[i,i] = -2/125 + (47/180)i`,
exactly in rational arithmetic, whatever the impurity parameters, the modified flag
and the build are. -/
theorem end_to_end_scenario (b : Build) (phys : Physical) (mhw : Bool) (c : QuadMat 2)
    (ha : phys.a 0 = 1) (hmu : phys.mu 0 = 1) (htau : phys.tau 0 = 1)
    (hd : phys.d = 1 / 100) (hnu : phys.nu = 1 / 1000) (hk : phys.kappa = 1 / 10)
    (hge : phys.g_e = 1) (hgi : phys.g 0 = 1) :
    ∃ M : QuadMat 2,
      (Equations.ctor phys mhw).operator2 b c (-4) ⟨0, 2⟩ = .ok M ∧
      M 0 0 = ⟨double.fin (-57 / 2000), double.fin (-3 / 4)⟩ ∧
      M 0 1 = ⟨double.fin (1 / 1200), double.fin (11 / 60)⟩ ∧
      M 1 0 = ⟨double.fin 0, double.fin (-11 / 60)⟩ ∧
      M 1 1 = ⟨double.fin (-2 / 125), double.fin (47 / 180)⟩ :=
  Equations.operator2_at_scenario b phys mhw c ha hmu htau hd hnu hk hge hgi

theorem end_to_end_scenario_witness :
    (scenario.phys.a 0 = 1 ∧ scenario.phys.mu 0 = 1 ∧ scenario.phys.tau 0 = 1 ∧
      scenario.phys.d = 1 / 100 ∧ scenario.phys.nu = 1 / 1000 ∧
      scenario.phys.kappa = 1 / 10 ∧ scenario.phys.g_e = 1 ∧ scenario.phys.g 0 = 1) ∧
    ∃ M : QuadMat 2,
      (Equations.ctor scenario.phys false).operator2 scenario.build (scenario.coeff 2) (-4)
        ⟨0, 2⟩ = .ok M ∧
      M 0 0 = ⟨double.fin (-57 / 2000), double.fin (-3 / 4)⟩ ∧
      M 0 1 = ⟨double.fin (1 / 1200), double.fin (11 / 60)⟩ ∧
      M 1 0 = ⟨double.fin 0, double.fin (-11 / 60)⟩ ∧
      M 1 1 = ⟨double.fin (-2 / 125), double.fin (47 / 180)⟩ :=
  ⟨⟨rfl, rfl, rfl, rfl, rfl, rfl, rfl, rfl⟩,
    end_to_end_scenario scenario.build scenario.phys false (scenario.coeff 2)
      rfl rfl rfl rfl rfl rfl rfl rfl⟩

theorem double.eq_fin_of_sub_fin (X : double) (v r : ℚ) (h : X - double.fin v = double.fin r) :
    X = double.fin (r + v) := by
  cases X with
  | fin a =>
    rw [double.fin_sub_fin] at h
    have h1 : a - v = r := double.fin.inj h
    rw [← h1]
    congr 1
    ring
  | nonfinite => exact absurd h (by intro h'; cases h')

/-- Two diagonal entries that are the same value less the hyperviscosity of `nu1` and
of `nu2`: where the first has a finite real part, the second has the finite real part
that is smaller by `(nu2 - nu1) (-laplace)^2`, and the imaginary parts agree. -/
theorem complex.sub_visc_lt (A : complex) (nu1 nu2 laplace r1 : ℚ) (hl : laplace < 0)
    (hnu : nu1 < nu2)
    (h : (A - (spec.visc nu1 laplace : double) : complex).re = double.fin r1) :
    ∃ r2, (A - (spec.visc nu2 laplace : double) : complex).re = double.fin r2 ∧
      r2 = r1 - (nu2 - nu1) * (-laplace) ^ 2 ∧ r2 < r1 := by
  simp only [complex.sub_double_eq] at h ⊢
  have hA := double.eq_fin_of_sub_fin _ _ _ h
  have hpos : 0 < (nu2 - nu1) * (-laplace) ^ 2 := by
    have h1 : 0 < nu2 - nu1 := by linarith
    have h2 : 0 < (-laplace) ^ 2 := by
      have : 0 < -laplace := by linarith
      positivity
    positivity
  refine ⟨r1 - (nu2 - nu1) * (-laplace) ^ 2, ?_, rfl, by linarith⟩
  rw [hA, double.fin_sub_fin]
  congr 1
  simp only [spec.visc]
  ring

/-- Hyperviscosity in the assembly without impurities: the two runs return, every
diagonal entry with a finite real part loses `(nu2 - nu1) (-laplace)^2`, and the
entries off the diagonal do not change. -/
theorem Equations.operator2_nu (b : Build) (phys : Physical) (mhw : Bool) (c : QuadMat 2)
    (laplace : ℚ) (dy : complex) (nu1 nu2 : ℚ) (hl : laplace < 0) (hnu : nu1 < nu2) :
    ∃ M N : QuadMat 2,
      (Equations.ctor { phys with nu := nu1 } mhw).operator2 b c laplace dy = .ok M ∧
      (Equations.ctor { phys with nu := nu2 } mhw).operator2 b c laplace dy = .ok N ∧
      (∀ k r1, (M k k).re = double.fin r1 →
        ∃ r2, (N k k).re = double.fin r2 ∧ r2 = r1 - (nu2 - nu1) * (-laplace) ^ 2 ∧ r2 < r1) ∧
      (∀ i j, i ≠ j → N i j = M i j) := by
  have hl' : laplace ≠ 0 := ne_of_lt hl
  obtain ⟨phiM, M, hpM, hM, m00, m01, m10, m11⟩ :=
    Equations.operator2_of_ne b (Equations.ctor { phys with nu := nu1 } mhw) c laplace dy hl'
  obtain ⟨phiN, N, hpN, hN, n00, n01, n10, n11⟩ :=
    Equations.operator2_of_ne b (Equations.ctor { phys with nu := nu2 } mhw) c laplace dy hl'
  have hphi : phiN = phiM :=
    (Poisson.operator2_unique b _ laplace hl' phiN hpN).trans
      (Poisson.operator2_unique b _ laplace hl' phiM hpM).symm
  subst hphi
  refine ⟨M, N, hM, hN, ?_, ?_⟩
  · intro k r1 h
    fin_cases k
    · have h' : (M 0 0).re = double.fin r1 := h
      rw [m00] at h'
      show ∃ r2, (N 0 0).re = double.fin r2 ∧ _
      rw [n00]
      exact complex.sub_visc_lt _ nu1 nu2 laplace r1 hl hnu h'
    · have h' : (M 1 1).re = double.fin r1 := h
      rw [m11] at h'
      show ∃ r2, (N 1 1).re = double.fin r2 ∧ _
      rw [n11]
      exact complex.sub_visc_lt _ nu1 nu2 laplace r1 hl hnu h'
  · intro i j hij
    fin_cases i <;> fin_cases j
    · exact absurd rfl hij
    · exact n01.trans m01.symm
    · exact n10.trans m10.symm
    · exact absurd rfl hij

/-- Hyperviscosity in the assembly with impurities. -/
theorem Equations.operator3_nu (b : Build) (phys : Physical) (mhw : Bool) (c : QuadMat 3)
    (laplace : ℚ) (dy : complex) (nu1 nu2 : ℚ) (hl : laplace < 0) (hnu : nu1 < nu2) :
    ∃ M N : QuadMat 3,
      (Equations.ctor { phys with nu := nu1 } mhw).operator3 b c laplace dy = .ok M ∧
      (Equations.ctor { phys with nu := nu2 } mhw).operator3 b c laplace dy = .ok N ∧
      (∀ k r1, (M k k).re = double.fin r1 →
        ∃ r2, (N k k).re = double.fin r2 ∧ r2 = r1 - (nu2 - nu1) * (-laplace) ^ 2 ∧ r2 < r1) ∧
      (∀ i j, i ≠ j → N i j = M i j) := by
  have hl' : laplace ≠ 0 := ne_of_lt hl
  obtain ⟨phiM, M, hpM, hM, m00, m01, m02, m10, m11, m12, m20, m21, m22⟩ :=
    Equations.operator3_of_ne b (Equations.ctor { phys with nu := nu1 } mhw) c laplace dy hl'
  obtain ⟨phiN, N, hpN, hN, n00, n01, n02, n10, n11, n12, n20, n21, n22⟩ :=
    Equations.operator3_of_ne b (Equations.ctor { phys with nu := nu2 } mhw) c laplace dy hl'
  have hphi : phiN = phiM :=
    (Poisson.operator3_unique b _ laplace hl' phiN hpN).trans
      (Poisson.operator3_unique b _ laplace hl' phiM hpM).symm
  subst hphi
  refine ⟨M, N, hM, hN, ?_, ?_⟩
  · intro k r1 h
    fin_cases k
    · have h' : (M 0 0).re = double.fin r1 := h
      rw [m00] at h'
      show ∃ r2, (N 0 0).re = double.fin r2 ∧ _
      rw [n00]
      exact complex.sub_visc_lt _ nu1 nu2 laplace r1 hl hnu h'
    · have h' : (M 1 1).re = double.fin r1 := h
      rw [m11] at h'
      show ∃ r2, (N 1 1).re = double.fin r2 ∧ _
      rw [n11]
      exact complex.sub_visc_lt _ nu1 nu2 laplace r1 hl hnu h'
    · have h' : (M 2 2).re = double.fin r1 := h
      rw [m22] at h'
      show ∃ r2, (N 2 2).re = double.fin r2 ∧ _
      rw [n22]
      exact complex.sub_visc_lt _ nu1 nu2 laplace r1 hl hnu h'
  · intro i j hij
    fin_cases i <;> fin_cases j
    · exact absurd rfl hij
    · exact n01.trans m01.symm
    · exact n02.trans m02.symm
    · exact n10.trans m10.symm
    · exact absurd rfl hij
    · exact n12.trans m12.symm
    · exact n20.trans m20.symm
    · exact n21.trans m21.symm
    · exact absurd rfl hij

@[simp] theorem double.mul_nonfinite (x : double) : x * double.nonfinite = double.nonfinite := by
  cases x <;> rfl

@[simp] theorem double.nonfinite_mul (x : double) : double.nonfinite * x = double.nonfinite := by
  cases x <;> rfl

@[simp] theorem double.add_nonfinite (x : double) : x + double.nonfinite = double.nonfinite := by
  cases x <;> rfl

@[simp] theorem double.nonfinite_add (x : double) : double.nonfinite + x = double.nonfinite := by
  cases x <;> rfl

@[simp] theorem double.sub_nonfinite (x : double) : x - double.nonfinite = double.nonfinite := by
  cases x <;> rfl

@[simp] theorem double.nonfinite_sub (x : double) : double.nonfinite - x = double.nonfinite := by
  cases x <;> rfl

@[simp] theorem double.fin_div_zero (a : ℚ) :
    (double.fin a / (0 : ℚ) : double) = double.nonfinite := by
  rw [double.fin_div, if_pos rfl]

/-- Where the denominator of the closure vanishes away from the zero mode, the
assembly without impurities returns, without a signal, a matrix whose (electron,
electron) entry has no finite real part. -/
theorem Equations.operator2_rho_zero (b : Build) (phys : Physical) (mhw : Bool)
    (c : QuadMat 2) (laplace : ℚ) (dy : complex) (hl : laplace ≠ 0)
    (hrho : phys.a 0 * phys.mu 0 * laplace = 0) :
    ∃ M : QuadMat 2, (Equations.ctor phys mhw).operator2 b c laplace dy = .ok M ∧
      (M 0 0).re = double.nonfinite := by
  obtain ⟨phi, M, hphi, hM, h00, -, -, -⟩ :=
    Equations.operator2_of_ne b (Equations.ctor phys mhw) c laplace dy hl
  have hphi' := Poisson.operator2_unique b _ laplace hl phi hphi
  refine ⟨M, hM, ?_⟩
  rw [h00, hphi']
  simp [Equations.ctor, Poisson.ctor, hrho]

end toefl

/-! ## Padding: the allocated width of `TL_DFT` -/

namespace spectral

/-- C15, as amended: for the discipline `TL_DFT` and every `size_t` value `cols`, the
allocated column count is even, and for even `cols` it is `cols + 2` in `size_t`
arithmetic (modulo `2 ^ 64`); it is at least `cols` exactly when `cols + 2` does not
wrap, that is for `cols <= SIZE_MAX - 2`, and then it is `cols + 2` for even `cols`
among the natural numbers. -/
theorem padding_dft_even (cols : ℕ) (hc : cols < size_t.modulus) :
    TotalNumberOf.columns .TL_DFT cols % 2 = 0 ∧
    (cols % 2 = 0 → TotalNumberOf.columns .TL_DFT cols = (cols + 2) % size_t.modulus) ∧
    (cols ≤ TotalNumberOf.columns .TL_DFT cols ↔ cols + 2 < size_t.modulus) ∧
    (cols + 2 < size_t.modulus → cols % 2 = 0 →
      TotalNumberOf.columns .TL_DFT cols = cols + 2) := by
  have hcol := columns_dft_eq cols hc
  rw [hcol]
  simp only [size_t.modulus] at *
  norm_num at *
  omega

theorem padding_dft_even_witness :
    6 < size_t.modulus ∧
    TotalNumberOf.columns .TL_DFT 6 % 2 = 0 ∧
    TotalNumberOf.columns .TL_DFT 6 = (6 + 2) % size_t.modulus ∧
    (6 ≤ TotalNumberOf.columns .TL_DFT 6 ↔ 6 + 2 < size_t.modulus) ∧
    TotalNumberOf.columns .TL_DFT 6 = 6 + 2 :=
  have h := padding_dft_even 6 (by decide)
  ⟨by decide, h.1, h.2.1 (by decide), h.2.2.1, h.2.2.2 (by decide) (by decide)⟩

/-- The claim C15 fails at the two largest `size_t` values: for `cols = SIZE_MAX` the
sum wraps, the allocated column count is `0` and it is not at least `cols`. -/
theorem padding_dft_even_counterexample :
    size_t.modulus - 1 < size_t.modulus ∧
    TotalNumberOf.columns .TL_DFT (size_t.modulus - 1) = 0 ∧
    ¬ (size_t.modulus - 1 ≤ TotalNumberOf.columns .TL_DFT (size_t.modulus - 1)) := by
  decide

end spectral

/-! ## Continuity of the gyro-averaging factor at the zero mode -/

namespace toefl

/-- The quotient `1 / (1 - c l)` tends to `1` as `l` tends to `0`: near `0` the
denominator stays above `1/2`. -/
theorem one_div_one_sub_near_zero (c ε : ℚ) (hε : 0 < ε) :
    ∃ δ : ℚ, 0 < δ ∧ ∀ l : ℚ, |l| < δ →
      1 - c * l ≠ 0 ∧ |1 / (1 - c * l) - 1| < ε := by
  have hm : 0 < min 1 ε := lt_min one_pos hε
  have hc : 0 < 2 * (|c| + 1) := by positivity
  refine ⟨min 1 ε / (2 * (|c| + 1)), div_pos hm hc, ?_⟩
  intro l hlt
  have h1 : |l| * (2 * (|c| + 1)) < min 1 ε := (lt_div_iff₀ hc).mp hlt
  have h2 : |c * l| < min 1 ε / 2 := by
    rw [abs_mul]
    have h3 : 0 ≤ |l| := abs_nonneg l
    have h4 : 0 ≤ |c| := abs_nonneg c
    nlinarith
  have hle1 : min 1 ε ≤ 1 := min_le_left 1 ε
  have hleε : min 1 ε ≤ ε := min_le_right 1 ε
  have h5 := abs_lt.mp h2
  have hden : 1 / 2 < 1 - c * l := by linarith [h5.2]
  have hden0 : 1 - c * l ≠ 0 := by
    intro h
    rw [h] at hden
    norm_num at hden
  refine ⟨hden0, ?_⟩
  have heq : 1 / (1 - c * l) - 1 = c * l / (1 - c * l) := by
    field_simp
  rw [heq, abs_div, abs_of_pos (by linarith : (0 : ℚ) < 1 - c * l),
    div_lt_iff₀ (by linarith : (0 : ℚ) < 1 - c * l)]
  nlinarith

/-- C16: continuity at the zero mode. For all species parameters, `gamma1_i` and
`gamma1_z` are `1` at `laplace = 0`, and they tend to `1` as `laplace` tends to `0`
through values that are not zero: for every `ε > 0` there is a `δ > 0` such that for
`0 < |laplace| < δ` both factors are finite and within `ε` of `1`. -/
theorem gamma1_continuous_at_zero (phys : Physical) :
    (Poisson.ctor phys).gamma1_i 0 = double.fin 1 ∧
    (Poisson.ctor phys).gamma1_z 0 = double.fin 1 ∧
    ∀ ε : ℚ, 0 < ε → ∃ δ : ℚ, 0 < δ ∧ ∀ laplace : ℚ, laplace ≠ 0 → |laplace| < δ →
      (∃ g : ℚ, (Poisson.ctor phys).gamma1_i laplace = double.fin g ∧ |g - 1| < ε) ∧
      (∃ g : ℚ, (Poisson.ctor phys).gamma1_z laplace = double.fin g ∧ |g - 1| < ε) := by
  refine ⟨?_, ?_, ?_⟩
  · simp [Poisson.gamma1_i, double.fin_div]
  · simp [Poisson.gamma1_z, double.fin_div]
  · intro ε hε
    obtain ⟨δi, hδi, hi⟩ := one_div_one_sub_near_zero (0.5 * phys.tau 0 * phys.mu 0) ε hε
    obtain ⟨δz, hδz, hz⟩ := one_div_one_sub_near_zero (0.5 * phys.tau 1 * phys.mu 1) ε hε
    refine ⟨min δi δz, lt_min hδi hδz, ?_⟩
    intro laplace _ hlt
    obtain ⟨hi0, hi1⟩ := hi laplace (lt_of_lt_of_le hlt (min_le_left _ _))
    obtain ⟨hz0, hz1⟩ := hz laplace (lt_of_lt_of_le hlt (min_le_right _ _))
    constructor
    · refine ⟨1 / (1 - 0.5 * phys.tau 0 * phys.mu 0 * laplace), ?_, hi1⟩
      simp only [Poisson.gamma1_i, Poisson.ctor, double.one_eq]
      exact double.fin_div_of_ne _ _ hi0
    · refine ⟨1 / (1 - 0.5 * phys.tau 1 * phys.mu 1 * laplace), ?_, hz1⟩
      simp only [Poisson.gamma1_z, Poisson.ctor, double.one_eq]
      exact double.fin_div_of_ne _ _ hz0

theorem gamma1_continuous_at_zero_witness :
    (0 : ℚ) < 1 ∧ ∃ δ : ℚ, 0 < δ ∧ ∀ laplace : ℚ, laplace ≠ 0 → |laplace| < δ →
      (∃ g : ℚ, (Poisson.ctor scenario.phys).gamma1_i laplace = double.fin g ∧ |g - 1| < 1) ∧
      (∃ g : ℚ, (Poisson.ctor scenario.phys).gamma1_z laplace = double.fin g ∧ |g - 1| < 1) :=
  ⟨one_pos, (gamma1_continuous_at_zero scenario.phys).2.2 1 one_pos⟩

end toefl

/-! ## Signals: the closure called at the zero mode, and the assembly -/

namespace toefl

/-- With `TL_DEBUG` the closure without impurities throws at `laplace == 0`. -/
theorem Poisson.operator2_debug_zero (b : Build) (p : Poisson) (c : std.array 2)
    (hb : b.TL_DEBUG = true) :
    p.operator2 b c 0 = .error ⟨"Laplace is zero in Poisson equation!", b.FILE, 188⟩ := by
  unfold Poisson.operator2
  rw [if_pos ⟨hb, rfl⟩]
  rfl

/-- With `TL_DEBUG` the closure with impurities throws at `laplace == 0`. -/
theorem Poisson.operator3_debug_zero (b : Build) (p : Poisson) (c : std.array 3)
    (hb : b.TL_DEBUG = true) :
    p.operator3 b c 0 = .error ⟨"Laplace is zero in Poisson equation!", b.FILE, 199⟩ := by
  unfold Poisson.operator3
  rw [if_pos ⟨hb, rfl⟩]
  rfl

/-- Without `TL_DEBUG` the closure without impurities divides by zero at
`laplace == 0` and returns two values that are not finite. -/
theorem Poisson.operator2_release_zero (b : Build) (p : Poisson) (c : std.array 2)
    (hb : b.TL_DEBUG = false) :
    ∃ phi : std.array 2, p.operator2 b c 0 = .ok phi ∧
      phi 0 = double.nonfinite ∧ phi 1 = double.nonfinite := by
  refine ⟨(c.set 0 ((1 : double) / (p.a_i * p.mu_i * 0))).set 1
    (((-p.a_i : ℚ) : double) * p.gamma1_i 0 / (p.a_i * p.mu_i * 0)), ?_, ?_, ?_⟩
  · unfold Poisson.operator2
    rw [if_neg (by rw [hb]; simp)]
    rfl
  · simp [std.array.set]
  · simp [std.array.set, Poisson.gamma1_i, double.fin_div]

/-- Without `TL_DEBUG` the closure with impurities divides by zero at `laplace == 0`
and returns three values that are not finite. -/
theorem Poisson.operator3_release_zero (b : Build) (p : Poisson) (c : std.array 3)
    (hb : b.TL_DEBUG = false) :
    ∃ phi : std.array 3, p.operator3 b c 0 = .ok phi ∧
      phi 0 = double.nonfinite ∧ phi 1 = double.nonfinite ∧ phi 2 = double.nonfinite := by
  refine ⟨((c.set 0 ((1 : double) / ((p.a_i * p.mu_i + p.a_z * p.mu_z) * 0))).set 1
    (((-p.a_i : ℚ) : double) * p.gamma1_i 0 / ((p.a_i * p.mu_i + p.a_z * p.mu_z) * 0))).set 2
    (((-p.a_z : ℚ) : double) * p.gamma1_z 0 / ((p.a_i * p.mu_i + p.a_z * p.mu_z) * 0)),
    ?_, ?_, ?_, ?_⟩
  · unfold Poisson.operator3
    rw [if_neg (by rw [hb]; simp)]
    rfl
  · simp [std.array.set]
  · simp [std.array.set, Poisson.gamma1_i, double.fin_div]
  · simp [std.array.set, Poisson.gamma1_z, double.fin_div]

/-- C17, as amended: in a build with `TL_DEBUG`, the closure called with
`laplace == 0` throws a `Message` with the text "Laplace is zero in Poisson
equation!", the file of `equations.h` and the line of the `throw` (188 without, 199
with impurities), and returns no coefficients; in a build without `TL_DEBUG` it
throws nothing and returns coefficients that are not finite; for `laplace != 0` it
never throws, in either build. -/
theorem closure_signal (b : Build) (p : Poisson) (c2 : std.array 2) (c3 : std.array 3) :
    (b.TL_DEBUG = true →
      p.operator2 b c2 0 = .error ⟨"Laplace is zero in Poisson equation!", b.FILE, 188⟩ ∧
      p.operator3 b c3 0 = .error ⟨"Laplace is zero in Poisson equation!", b.FILE, 199⟩) ∧
    (b.TL_DEBUG = false →
      (∃ phi : std.array 2, p.operator2 b c2 0 = .ok phi ∧
        phi 0 = double.nonfinite ∧ phi 1 = double.nonfinite) ∧
      (∃ phi : std.array 3, p.operator3 b c3 0 = .ok phi ∧
        phi 0 = double.nonfinite ∧ phi 1 = double.nonfinite ∧ phi 2 = double.nonfinite)) ∧
    (∀ laplace : ℚ, laplace ≠ 0 →
      (∃ phi : std.array 2, p.operator2 b c2 laplace = .ok phi) ∧
      (∃ phi : std.array 3, p.operator3 b c3 laplace = .ok phi)) :=
  ⟨fun hb => ⟨Poisson.operator2_debug_zero b p c2 hb, Poisson.operator3_debug_zero b p c3 hb⟩,
    fun hb => ⟨Poisson.operator2_release_zero b p c2 hb,
      Poisson.operator3_release_zero b p c3 hb⟩,
    fun laplace hl => ⟨⟨_, Poisson.operator2_ok b p c2 laplace hl⟩,
      ⟨_, Poisson.operator3_ok b p c3 laplace hl⟩⟩⟩

theorem closure_signal_witness :
    (scenario.debug.TL_DEBUG = true ∧
      (Poisson.ctor scenario.phys).operator2 scenario.debug (std.array.uninitialized 2) 0
        = .error ⟨"Laplace is zero in Poisson equation!", scenario.debug.FILE, 188⟩ ∧
      (Poisson.ctor scenario.phys).operator3 scenario.debug (std.array.uninitialized 3) 0
        = .error ⟨"Laplace is zero in Poisson equation!", scenario.debug.FILE, 199⟩) ∧
    (scenario.build.TL_DEBUG = false ∧
      (∃ phi : std.array 2,
        (Poisson.ctor scenario.phys).operator2 scenario.build (std.array.uninitialized 2) 0
          = .ok phi ∧
        phi 0 = double.nonfinite ∧ phi 1 = double.nonfinite) ∧
      (∃ phi : std.array 3,
        (Poisson.ctor scenario.phys).operator3 scenario.build (std.array.uninitialized 3) 0
          = .ok phi ∧
        phi 0 = double.nonfinite ∧ phi 1 = double.nonfinite ∧ phi 2 = double.nonfinite)) ∧
    ((-4 : ℚ) ≠ 0 ∧
      (∃ phi : std.array 2,
        (Poisson.ctor scenario.phys).operator2 scenario.debug (std.array.uninitialized 2)
          (-4) = .ok phi) ∧
      (∃ phi : std.array 3,
        (Poisson.ctor scenario.phys).operator3 scenario.debug (std.array.uninitialized 3)
          (-4) = .ok phi)) :=
  ⟨⟨rfl, (closure_signal scenario.debug (Poisson.ctor scenario.phys)
      (std.array.uninitialized 2) (std.array.uninitialized 3)).1 rfl⟩,
    ⟨rfl, (closure_signal scenario.build (Poisson.ctor scenario.phys)
      (std.array.uninitialized 2) (std.array.uninitialized 3)).2.1 rfl⟩,
    ⟨by norm_num, (closure_signal scenario.debug (Poisson.ctor scenario.phys)
      (std.array.uninitialized 2) (std.array.uninitialized 3)).2.2 (-4) (by norm_num)⟩⟩

/-- The claim C17 fails in a build without `TL_DEBUG`: called with `laplace == 0`, the
closure throws no `Message`; it returns coefficients, and they are not finite. -/
theorem closure_signal_counterexample :
    scenario.build.TL_DEBUG = false ∧
    (¬ ∃ m : spectral.Message,
      (Poisson.ctor scenario.phys).operator2 scenario.build (std.array.uninitialized 2) 0
        = .error m) ∧
    ∃ phi : std.array 2,
      (Poisson.ctor scenario.phys).operator2 scenario.build (std.array.uninitialized 2) 0
        = .ok phi ∧
      phi 0 = double.nonfinite ∧ phi 1 = double.nonfinite := by
  obtain ⟨phi, h, h0, h1⟩ := Poisson.operator2_release_zero scenario.build
    (Poisson.ctor scenario.phys) (std.array.uninitialized 2) rfl
  refine ⟨rfl, ?_, phi, h, h0, h1⟩
  rintro ⟨m, hm⟩
  rw [h] at hm
  cases hm

/-- The assembly without impurities returns for every input, and what it returns
does not depend on the matrix it is handed. -/
theorem Equations.operator2_total (b : Build) (e : Equations) (laplace : ℚ) (dy : complex) :
    ∃ M : QuadMat 2, ∀ c : QuadMat 2, e.operator2 b c laplace dy = .ok M := by
  by_cases hl : laplace = 0
  · subst hl
    exact ⟨_, fun c => Equations.operator2_zero b e c dy⟩
  · obtain ⟨phi, M, hphi, hM, h00, h01, h10, h11⟩ :=
      Equations.operator2_of_ne b e (fun _ _ => complex.ofDouble 0) laplace dy hl
    refine ⟨M, fun c => ?_⟩
    obtain ⟨phi', M', hphi', hM', k00, k01, k10, k11⟩ :=
      Equations.operator2_of_ne b e c laplace dy hl
    have hp : phi' = phi :=
      (Poisson.operator2_unique b _ laplace hl phi' hphi').trans
        (Poisson.operator2_unique b _ laplace hl phi hphi).symm
    subst hp
    rw [hM']
    congr 1
    funext i j
    fin_cases i <;> fin_cases j
    · exact k00.trans h00.symm
    · exact k01.trans h01.symm
    · exact k10.trans h10.symm
    · exact k11.trans h11.symm

/-- The assembly with impurities returns for every input, and what it returns does
not depend on the matrix it is handed. -/
theorem Equations.operator3_total (b : Build) (e : Equations) (laplace : ℚ) (dy : complex) :
    ∃ M : QuadMat 3, ∀ c : QuadMat 3, e.operator3 b c laplace dy = .ok M := by
  by_cases hl : laplace = 0
  · subst hl
    exact ⟨_, fun c => Equations.operator3_zero b e c dy⟩
  · obtain ⟨phi, M, hphi, hM, h00, h01, h02, h10, h11, h12, h20, h21, h22⟩ :=
      Equations.operator3_of_ne b e (fun _ _ => complex.ofDouble 0) laplace dy hl
    refine ⟨M, fun c => ?_⟩
    obtain ⟨phi', M', hphi', hM', k00, k01, k02, k10, k11, k12, k20, k21, k22⟩ :=
      Equations.operator3_of_ne b e c laplace dy hl
    have hp : phi' = phi :=
      (Poisson.operator3_unique b _ laplace hl phi' hphi').trans
        (Poisson.operator3_unique b _ laplace hl phi hphi).symm
    subst hp
    rw [hM']
    congr 1
    funext i j
    fin_cases i <;> fin_cases j
    · exact k00.trans h00.symm
    · exact k01.trans h01.symm
    · exact k02.trans h02.symm
    · exact k10.trans h10.symm
    · exact k11.trans h11.symm
    · exact k12.trans h12.symm
    · exact k20.trans h20.symm
    · exact k21.trans h21.symm
    · exact k22.trans h22.symm

/-- C18: the error path of the closure is unreachable from the assembly. For every
parameter set, every build and every `(laplace, dy)`, both assemblies return a matrix
and never a `Message`; the matrix does not depend on what the output held before, so
every entry is written; at `laplace == 0` they return although the closure of a build
with `TL_DEBUG` throws there, and at `laplace != 0` the closure they call returns. -/
theorem assembly_never_signals (b : Build) (phys : Physical) (mhw : Bool) (laplace : ℚ)
    (dy : complex) :
    (∃ M : QuadMat 2, ∀ c : QuadMat 2,
      (Equations.ctor phys mhw).operator2 b c laplace dy = .ok M) ∧
    (∃ M : QuadMat 3, ∀ c : QuadMat 3,
      (Equations.ctor phys mhw).operator3 b c laplace dy = .ok M) ∧
    (laplace ≠ 0 →
      (∃ phi : std.array 2, ∀ c0,
        (Equations.ctor phys mhw).p.operator2 b c0 laplace = .ok phi) ∧
      (∃ phi : std.array 3, ∀ c0,
        (Equations.ctor phys mhw).p.operator3 b c0 laplace = .ok phi)) ∧
    (laplace = 0 → b.TL_DEBUG = true →
      (∀ c0, ∃ m, (Equations.ctor phys mhw).p.operator2 b c0 laplace = .error m) ∧
      (∀ c0, ∃ m, (Equations.ctor phys mhw).p.operator3 b c0 laplace = .error m)) := by
  refine ⟨Equations.operator2_total b _ laplace dy, Equations.operator3_total b _ laplace dy,
    fun hl => ⟨⟨_, fun c0 => Poisson.operator2_ok b _ c0 laplace hl⟩,
      ⟨_, fun c0 => Poisson.operator3_ok b _ c0 laplace hl⟩⟩, ?_⟩
  intro hl hb
  subst hl
  exact ⟨fun c0 => ⟨_, Poisson.operator2_debug_zero b _ c0 hb⟩,
    fun c0 => ⟨_, Poisson.operator3_debug_zero b _ c0 hb⟩⟩

theorem assembly_never_signals_witness :
    (∃ M : QuadMat 2, ∀ c : QuadMat 2,
      (Equations.ctor scenario.phys false).operator2 scenario.debug c 0 scenario.dy = .ok M) ∧
    (∃ M : QuadMat 3, ∀ c : QuadMat 3,
      (Equations.ctor scenario.phys false).operator3 scenario.debug c 0 scenario.dy = .ok M) ∧
    (∀ c0, ∃ m,
      (Equations.ctor scenario.phys false).p.operator2 scenario.debug c0 0 = .error m) ∧
    (∀ c0, ∃ m,
      (Equations.ctor scenario.phys false).p.operator3 scenario.debug c0 0 = .error m) :=
  have h := assembly_never_signals scenario.debug scenario.phys false 0 scenario.dy
  ⟨h.1, h.2.1, (h.2.2.2 rfl rfl).1, (h.2.2.2 rfl rfl).2⟩

/-! ## Well-defined matrices -/

@[simp] theorem double.isFinite_fin (q : ℚ) : (double.fin q).isFinite = true := rfl

@[simp] theorem double.isFinite_nonfinite : double.nonfinite.isFinite = false := rfl

@[simp] theorem double.isFinite_add (x y : double) :
    (x + y).isFinite = (x.isFinite && y.isFinite) := by
  cases x <;> cases y <;> rfl

@[simp] theorem double.isFinite_sub (x y : double) :
    (x - y).isFinite = (x.isFinite && y.isFinite) := by
  cases x <;> cases y <;> rfl

@[simp] theorem double.isFinite_mul (x y : double) :
    (x * y).isFinite = (x.isFinite && y.isFinite) := by
  cases x <;> cases y <;> rfl

@[simp] theorem double.isFinite_div (x : double) (q : ℚ) :
    (x / q : double).isFinite = (x.isFinite && decide (q ≠ 0)) := by
  cases x with
  | fin a =>
    by_cases hq : q = 0
    · simp [double.fin_div, hq]
    · simp [double.fin_div, hq]
  | nonfinite => simp

theorem forall_fin_three (P : Fin 3 → Prop) : (∀ i, P i) ↔ P 0 ∧ P 1 ∧ P 2 := by
  constructor
  · intro h
    exact ⟨h 0, h 1, h 2⟩
  · rintro ⟨h0, h1, h2⟩ i
    fin_cases i
    · exact h0
    · exact h1
    · exact h2

/-- The matrix of the assembly without impurities, at a finite `dy`, is finite exactly
when no division was by zero. -/
theorem Equations.operator2_isFinite (b : Build) (e : Equations) (c : QuadMat 2)
    (laplace x y : ℚ) :
    ∃ M : QuadMat 2, e.operator2 b c laplace ⟨double.fin x, double.fin y⟩ = .ok M ∧
      (M.isFinite ↔ laplace = 0 ∨
        (e.p.a_i * e.p.mu_i * laplace ≠ 0 ∧ 1 - 0.5 * e.p.tau_i * e.p.mu_i * laplace ≠ 0)) := by
  by_cases hl : laplace = 0
  · subst hl
    refine ⟨_, Equations.operator2_zero b e c _, ?_⟩
    simp only [true_or, iff_true]
    intro i j
    by_cases h : i = 0 ∧ j = 0 <;> simp [h, complex.isFinite, complex.ofDouble]
  · obtain ⟨phi, M, hphi, hM, h00, h01, h10, h11⟩ :=
      Equations.operator2_of_ne b e c laplace ⟨double.fin x, double.fin y⟩ hl
    have hphi' := Poisson.operator2_unique b _ laplace hl phi hphi
    refine ⟨M, hM, ?_⟩
    simp only [QuadMat.isFinite, Fin.forall_fin_two, h00, h01, h10, h11, hphi']
    simp [complex.isFinite, spec.P, spec.Q, spec.curv, Poisson.gamma1_i, hl]
    tauto

/-- The matrix of the assembly with impurities, at a finite `dy`, is finite exactly
when no division was by zero. -/
theorem Equations.operator3_isFinite (b : Build) (e : Equations) (c : QuadMat 3)
    (laplace x y : ℚ) :
    ∃ M : QuadMat 3, e.operator3 b c laplace ⟨double.fin x, double.fin y⟩ = .ok M ∧
      (M.isFinite ↔ laplace = 0 ∨
        ((e.p.a_i * e.p.mu_i + e.p.a_z * e.p.mu_z) * laplace ≠ 0 ∧
          1 - 0.5 * e.p.tau_i * e.p.mu_i * laplace ≠ 0 ∧
          1 - 0.5 * e.p.tau_z * e.p.mu_z * laplace ≠ 0)) := by
  by_cases hl : laplace = 0
  · subst hl
    refine ⟨_, Equations.operator3_zero b e c _, ?_⟩
    simp only [true_or, iff_true]
    intro i j
    by_cases h : i = 0 ∧ j = 0 <;> simp [h, complex.isFinite, complex.ofDouble]
  · obtain ⟨phi, M, hphi, hM, h00, h01, h02, h10, h11, h12, h20, h21, h22⟩ :=
      Equations.operator3_of_ne b e c laplace ⟨double.fin x, double.fin y⟩ hl
    have hphi' := Poisson.operator3_unique b _ laplace hl phi hphi
    refine ⟨M, hM, ?_⟩
    simp only [QuadMat.isFinite, forall_fin_three, h00, h01, h02, h10, h11, h12, h20, h21,
      h22, hphi']
    simp [complex.isFinite, spec.P, spec.Q, spec.R, spec.curv, Poisson.gamma1_i,
      Poisson.gamma1_z, hl]
    tauto

end toefl

/-! ## The parameters that `read_input` reads -/

namespace file

theorem spec.parameters_append (ng : std.num_get) (l r : List Char) (h : '=' ∉ l) :
    spec.parameters ng (l ++ r) = spec.parameters ng r := by
  induction l with
  | nil => rfl
  | cons c l ih =>
    have hc : c ≠ '=' := fun hc => h (by rw [hc]; exact List.mem_cons_self _ _)
    have hl : '=' ∉ l := fun hl => h (List.mem_cons_of_mem _ hl)
    rw [List.cons_append]
    simp only [spec.parameters, if_neg hc]
    exact ih hl

theorem spec.parameters_length (ng : std.num_get) (text : List Char) :
    (spec.parameters ng text).length = text.count '=' := by
  induction text with
  | nil => rfl
  | cons c l ih =>
    by_cases hc : c = '='
    · subst hc
      simp [spec.parameters, ih]
    · have hc' : ('=' : Char) ≠ c := fun h => hc h.symm
      simp [spec.parameters, hc, ih, List.count_cons, hc']

theorem spec.parameters_of_not_mem (ng : std.num_get) (text : List Char) (h : '=' ∉ text) :
    spec.parameters ng text = [] := by
  have := spec.parameters_append ng text [] h
  rwa [List.append_nil] at this

theorem not_mem_takeWhile_isspace (l : List Char) : '=' ∉ l.takeWhile std.isspace := by
  intro h
  have := List.mem_takeWhile_imp h
  revert this
  decide

end file

namespace std

theorem istream.get_end (is : istream) (s : Char) (hg : is.good = true) (hbuf : is.buf = []) :
    is.get s = ({ is with eofbit := true, failbit := true }, s) := by
  simp only [istream.get, hg, if_true, hbuf]

theorem istream.get_cons (is : istream) (s c : Char) (rest : List Char) (hg : is.good = true)
    (hbuf : is.buf = c :: rest) :
    is.get s = ({ is with buf := rest }, c) := by
  simp only [istream.get, hg, if_true, hbuf]

theorem istream.extract_of_not_good (ng : num_get) (is : istream) (read : ℚ)
    (hg : is.good = false) :
    is.extract ng read = ({ is with failbit := true }, read) := by
  simp [istream.extract, hg]

theorem istream.extract_end (ng : num_get) (is : istream) (read : ℚ) (hg : is.good = true)
    (hbuf : is.buf.dropWhile isspace = []) :
    is.extract ng read = ({ is with buf := [], eofbit := true, failbit := true }, read) := by
  simp only [istream.extract, hg, if_true, hbuf]

theorem istream.extract_some (ng : num_get) (is : istream) (read : ℚ) (hg : is.good = true)
    (c : Char) (rest unread : List Char) (v : ℚ) (hbuf : is.buf.dropWhile isspace = c :: rest)
    (hscan : ng.scan (c :: rest) = (some v, unread)) :
    is.extract ng read = ({ is with buf := unread, eofbit := unread.isEmpty }, v) := by
  simp only [istream.extract, hg, if_true, hbuf, hscan]

theorem istream.extract_none (ng : num_get) (is : istream) (read : ℚ) (hg : is.good = true)
    (c : Char) (rest unread : List Char) (hbuf : is.buf.dropWhile isspace = c :: rest)
    (hscan : ng.scan (c :: rest) = (none, unread)) :
    is.extract ng read
      = ({ is with buf := unread, eofbit := unread.isEmpty, failbit := true }, 0) := by
  simp only [istream.extract, hg, if_true, hbuf, hscan]

end std

namespace file

theorem read_input.body_end (ng : std.num_get) (FILE : String) (l1 l2 : Int)
    (declare : Char → Char) (st : read_input.state) (hb : st.is.badbit = false)
    (hg : st.is.good = true) (hbuf : st.is.buf = []) (hs : declare st.s ≠ '=') :
    read_input.body ng FILE l1 l2 declare st
      = .ok ⟨{ st.is with eofbit := true, failbit := true }, declare st.s, st.read,
          st.para⟩ := by
  simp only [read_input.body, std.istream.get_end _ _ hg hbuf]
  simp [hs, std.istream.bad, hb]
  rfl

theorem read_input.body_end_eq (ng : std.num_get) (FILE : String) (l1 l2 : Int)
    (declare : Char → Char) (st : read_input.state)
    (hg : st.is.good = true) (hbuf : st.is.buf = []) (hs : declare st.s = '=') :
    read_input.body ng FILE l1 l2 declare st
      = .error ⟨"Error while reading parameter. Is there a character behind = ?\n", FILE,
          l1⟩ := by
  have hng : ({ st.is with eofbit := true, failbit := true } : std.istream).good = false := by
    simp [std.istream.good]
  simp only [read_input.body, std.istream.get_end _ _ hg hbuf, hs,
    std.istream.extract_of_not_good ng _ _ hng]
  simp [std.istream.fail]
  rfl

theorem read_input.body_other (ng : std.num_get) (FILE : String) (l1 l2 : Int)
    (declare : Char → Char) (st : read_input.state) (hb : st.is.badbit = false)
    (hg : st.is.good = true) (c : Char) (rest : List Char) (hbuf : st.is.buf = c :: rest)
    (hc : c ≠ '=') :
    read_input.body ng FILE l1 l2 declare st
      = .ok ⟨{ st.is with buf := rest }, c, st.read, st.para⟩ := by
  simp only [read_input.body, std.istream.get_cons _ _ c rest hg hbuf]
  simp [hc, std.istream.bad, hb]
  rfl

theorem read_input.body_eq_end (ng : std.num_get) (FILE : String) (l1 l2 : Int)
    (declare : Char → Char) (st : read_input.state)
    (hg : st.is.good = true) (rest : List Char) (hbuf : st.is.buf = '=' :: rest)
    (hrest : rest.dropWhile std.isspace = []) :
    read_input.body ng FILE l1 l2 declare st
      = .error ⟨"Error while reading parameter. Is there a character behind = ?\n", FILE,
          l1⟩ := by
  have hg' : ({ st.is with buf := rest } : std.istream).good = true := hg
  simp only [read_input.body, std.istream.get_cons _ _ '=' rest hg hbuf,
    std.istream.extract_end ng _ _ hg' hrest]
  simp [std.istream.fail]
  rfl

theorem read_input.body_eq_none (ng : std.num_get) (FILE : String) (l1 l2 : Int)
    (declare : Char → Char) (st : read_input.state)
    (hg : st.is.good = true) (rest : List Char) (hbuf : st.is.buf = '=' :: rest)
    (c : Char) (cs unread : List Char) (hrest : rest.dropWhile std.isspace = c :: cs)
    (hscan : ng.scan (c :: cs) = (none, unread)) :
    read_input.body ng FILE l1 l2 declare st
      = .error ⟨"Error while reading parameter. Is there a character behind = ?\n", FILE,
          l1⟩ := by
  have hg' : ({ st.is with buf := rest } : std.istream).good = true := hg
  simp only [read_input.body, std.istream.get_cons _ _ '=' rest hg hbuf,
    std.istream.extract_none ng _ _ hg' c cs unread hrest hscan]
  simp [std.istream.fail]
  rfl

theorem read_input.body_eq_some (ng : std.num_get) (FILE : String) (l1 l2 : Int)
    (declare : Char → Char) (st : read_input.state) (hb : st.is.badbit = false)
    (hg : st.is.good = true) (rest : List Char) (hbuf : st.is.buf = '=' :: rest)
    (c : Char) (cs unread : List Char) (v : ℚ)
    (hrest : rest.dropWhile std.isspace = c :: cs)
    (hscan : ng.scan (c :: cs) = (some v, unread)) :
    read_input.body ng FILE l1 l2 declare st
      = .ok ⟨{ st.is with buf := unread, eofbit := unread.isEmpty }, '=', v,
          st.para ++ [v]⟩ := by
  have hg' : ({ st.is with buf := rest } : std.istream).good = true := hg
  have hf : st.is.failbit = false := by
    simp [std.istream.good] at hg
    exact hg.1.2
  simp only [read_input.body, std.istream.get_cons _ _ '=' rest hg hbuf,
    std.istream.extract_some ng _ _ hg' c cs unread v hrest hscan]
  simp [std.istream.fail, std.istream.bad, hb, hf]
  rfl

end file

namespace file

/-- The loop ends within the bound, and where it returns a vector, the vector is the
one of before the loop followed by the parameters of the unread text. -/
theorem read_input.loop_spec (ng : std.num_get) (hng : ng.lawful) (FILE : String)
    (l1 l2 : Int) (declare : Char → Char) :
    ∀ (fuel : ℕ) (st : read_input.state), st.is.badbit = false →
      (st.is.good = false → st.is.buf = []) →
      (if st.is.good = true then st.is.buf.length + 2 else 1) ≤ fuel →
      ∃ r, read_input.loop ng FILE l1 l2 declare fuel st = some r ∧
        ∀ v, r = .ok v → v.map some = st.para.map some ++ spec.parameters ng st.is.buf := by
  intro fuel
  induction fuel with
  | zero =>
    intro st _ _ hfuel
    split_ifs at hfuel <;> omega
  | succ fuel ih =>
    intro st hb hinv hfuel
    by_cases hg : st.is.good = true
    swap
    · have hg' : st.is.good = false := by simpa using hg
      refine ⟨.ok st.para, by simp [read_input.loop, hg'], ?_⟩
      intro v hv
      rw [← Except.ok.inj hv, hinv hg']
      simp [spec.parameters]
    rw [if_pos hg] at hfuel
    cases hbuf : st.is.buf with
    | nil =>
      by_cases hs : declare st.s = '='
      · refine ⟨.error ⟨"Error while reading parameter. Is there a character behind = ?\n", FILE,
            l1⟩, by
          simp only [read_input.loop, hg, if_true,
            read_input.body_end_eq ng FILE l1 l2 declare st hg hbuf hs], ?_⟩
        intro v hv
        cases hv
      · have hbody := read_input.body_end ng FILE l1 l2 declare st hb hg hbuf hs
        obtain ⟨r, hr, hspec⟩ := ih
          ⟨{ st.is with eofbit := true, failbit := true }, declare st.s, st.read, st.para⟩
          hb (fun _ => hbuf) (by
            have : ({ st.is with eofbit := true, failbit := true } : std.istream).good
                = false := by simp [std.istream.good]
            simp only [this]
            rw [hbuf] at hfuel
            simp at hfuel ⊢
            omega)
        refine ⟨r, by simp only [read_input.loop, hg, if_true, hbody, hr], ?_⟩
        intro v hv
        have := hspec v hv
        simpa [hbuf] using this
    | cons c rest =>
      rw [hbuf] at hfuel
      by_cases hc : c = '='
      · subst hc
        cases hrest : rest.dropWhile std.isspace with
        | nil =>
          refine ⟨.error ⟨"Error while reading parameter. Is there a character behind = ?\n", FILE,
            l1⟩, by
            simp only [read_input.loop, hg, if_true,
              read_input.body_eq_end ng FILE l1 l2 declare st hg rest hbuf hrest], ?_⟩
          intro v hv
          cases hv
        | cons b bs =>
          cases hscan : ng.scan (b :: bs) with
          | mk val unread =>
            cases val with
            | none =>
              refine ⟨.error ⟨"Error while reading parameter. Is there a character behind = ?\n", FILE,
            l1⟩, by
                simp only [read_input.loop, hg, if_true,
                  read_input.body_eq_none ng FILE l1 l2 declare st hg rest hbuf b bs unread
                    hrest hscan], ?_⟩
              intro v hv
              cases hv
            | some x =>
              have hbody := read_input.body_eq_some ng FILE l1 l2 declare st hb hg rest hbuf
                b bs unread x hrest hscan
              obtain ⟨pre, hpre, hnot⟩ := hng (b :: bs)
              rw [hscan] at hpre
              have hsplit : rest = rest.takeWhile std.isspace ++ (pre ++ unread) := by
                rw [← hpre, ← hrest, List.takeWhile_append_dropWhile]
              have hlen : unread.length ≤ rest.length := by
                have := congrArg List.length hsplit
                simp only [List.length_append] at this
                omega
              have hf : st.is.failbit = false := by
                simp [std.istream.good] at hg
                exact hg.1.2
              obtain ⟨r, hr, hspec⟩ := ih
                ⟨{ st.is with buf := unread, eofbit := unread.isEmpty }, '=', x,
                  st.para ++ [x]⟩ hb
                (by
                  intro h
                  simp [std.istream.good, hf, hb] at h
                  exact h)
                (by
                  split_ifs
                  · simp only [List.length_cons] at hfuel
                    show unread.length + 2 ≤ fuel
                    omega
                  · simp only [List.length_cons] at hfuel
                    omega)
              refine ⟨r, by simp only [read_input.loop, hg, if_true, hbody, hr], ?_⟩
              intro v hv
              have h1 := hspec v hv
              have h2 : spec.parameters ng rest = spec.parameters ng unread := by
                rw [hsplit, spec.parameters_append ng _ _ (not_mem_takeWhile_isspace rest),
                  spec.parameters_append ng _ _ hnot]
              have h3 : spec.number_behind ng rest = some x := by
                simp only [spec.number_behind, hrest, hscan]
              simp only [spec.parameters, if_true, h3, h2]
              simpa using h1
      · have hbody := read_input.body_other ng FILE l1 l2 declare st hb hg c rest hbuf hc
        obtain ⟨r, hr, hspec⟩ := ih
          ⟨{ st.is with buf := rest }, c, st.read, st.para⟩ hb
          (by
            intro h
            have : ({ st.is with buf := rest } : std.istream).good = true := hg
            rw [this] at h
            cases h)
          (by
            have : ({ st.is with buf := rest } : std.istream).good = true := hg
            simp only [this, if_true]
            simp only [List.length_cons] at hfuel
            show rest.length + 2 ≤ fuel
            omega)
        refine ⟨r, by simp only [read_input.loop, hg, if_true, hbody, hr], ?_⟩
        intro v hv
        have h1 := hspec v hv
        simp only [spec.parameters, if_neg hc]
        exact h1

end file

namespace file

/-- On a text without the character `=` the loop returns the vector of before the
loop, provided that the variable `s` does not hold a `=` by accident. -/
theorem read_input.loop_of_not_mem (ng : std.num_get) (FILE : String) (l1 l2 : Int)
    (declare : Char → Char) (hdecl : ∀ c, c ≠ '=' → declare c ≠ '=') :
    ∀ (fuel : ℕ) (st : read_input.state), st.is.badbit = false →
      (if st.is.good = true then st.is.buf.length + 2 else 1) ≤ fuel →
      '=' ∉ st.is.buf → st.s ≠ '=' →
      read_input.loop ng FILE l1 l2 declare fuel st = some (.ok st.para) := by
  intro fuel
  induction fuel with
  | zero =>
    intro st _ hfuel
    split_ifs at hfuel <;> omega
  | succ fuel ih =>
    intro st hb hfuel hmem hs
    by_cases hg : st.is.good = true
    swap
    · have hg' : st.is.good = false := by simpa using hg
      simp [read_input.loop, hg']
    rw [if_pos hg] at hfuel
    cases hbuf : st.is.buf with
    | nil =>
      have hbody := read_input.body_end ng FILE l1 l2 declare st hb hg hbuf (hdecl _ hs)
      have hng : ({ st.is with eofbit := true, failbit := true } : std.istream).good
          = false := by simp [std.istream.good]
      simp only [read_input.loop, hg, if_true, hbody]
      rw [hbuf] at hfuel
      obtain ⟨k, hk⟩ : ∃ k, fuel = k + 1 := ⟨fuel - 1, by simp at hfuel; omega⟩
      subst hk
      simp [read_input.loop, hng]
    | cons c rest =>
      rw [hbuf] at hfuel hmem
      have hc : c ≠ '=' := fun h => hmem (by rw [h]; exact List.mem_cons_self _ _)
      have hrest : '=' ∉ rest := fun h => hmem (List.mem_cons_of_mem _ h)
      have hbody := read_input.body_other ng FILE l1 l2 declare st hb hg c rest hbuf hc
      have hg' : ({ st.is with buf := rest } : std.istream).good = true := hg
      simp only [read_input.loop, hg, if_true, hbody]
      exact ih ⟨{ st.is with buf := rest }, c, st.read, st.para⟩ hb
        (by
          simp only [hg', if_true]
          simp only [List.length_cons] at hfuel
          show rest.length + 2 ≤ fuel
          omega)
        hrest hc

theorem istream_on_good (text : List Char) : (std.istream.on text).good = true := rfl

/-- The overload for a string: it ends, and a vector that it returns is `-1` followed
by the parameters of the text before the first `NUL`, one for every `=` there. -/
theorem read_input_spec (ng : std.num_get) (hng : ng.lawful) (FILE : String) (s0 : Char)
    (read0 : ℚ) (file : List Char) :
    ∃ r, read_input ng FILE s0 read0 file = some r ∧
      ∀ v, r = .ok v →
        v.map some = some (-1) :: spec.parameters ng (std.c_str file) ∧
        v.length = (std.c_str file).count '=' + 1 := by
  obtain ⟨r, hr, hspec⟩ := read_input.loop_spec ng hng FILE 107 110 (fun _ => s0)
    ((std.c_str file).length + 2) ⟨std.istream.on (std.c_str file), s0, read0, [-1]⟩ rfl
    (by intro h; rw [istream_on_good] at h; cases h)
    (by simp only [istream_on_good, if_true]; exact le_refl _)
  refine ⟨r, hr, fun v hv => ?_⟩
  have h1 : v.map some = some (-1) :: spec.parameters ng (std.c_str file) := hspec v hv
  refine ⟨h1, ?_⟩
  have h2 := congrArg List.length h1
  simpa [spec.parameters_length] using h2

/-- The overload for a file name: on a file that opens it ends, and a vector that it
returns is `-1` followed by the parameters of the text of the file, one for every
`=` there. -/
theorem read_input_file_spec (ng : std.num_get) (hng : ng.lawful) (FILE : String)
    (fs : String → Option (List Char)) (s0 : Char) (read0 : ℚ) (filename : String)
    (text : List Char) (hfs : fs filename = some text) :
    ∃ r, read_input_file ng FILE fs s0 read0 filename = some r ∧
      ∀ v, r = .ok v →
        v.map some = some (-1) :: spec.parameters ng text ∧
        v.length = text.count '=' + 1 := by
  obtain ⟨r, hr, hspec⟩ := read_input.loop_spec ng hng FILE 44 47 id
    (text.length + 2) ⟨std.istream.on text, s0, read0, [-1]⟩ rfl
    (by intro h; rw [istream_on_good] at h; cases h)
    (by simp only [istream_on_good, if_true]; exact le_refl _)
  refine ⟨r, by simp only [read_input_file, hfs]; exact hr, fun v hv => ?_⟩
  have h1 : v.map some = some (-1) :: spec.parameters ng text := hspec v hv
  refine ⟨h1, ?_⟩
  have h2 := congrArg List.length h1
  simpa [spec.parameters_length] using h2

/-- A text without `NUL` is read whole by the overload for a string. -/
theorem c_str_of_not_mem (file : List Char) (h : Char.ofNat 0 ∉ file) :
    std.c_str file = file := by
  unfold std.c_str
  rw [List.takeWhile_eq_self_iff]
  intro c hc
  have : c ≠ Char.ofNat 0 := fun h0 => h (h0 ▸ hc)
  simpa using this

/-- The overload for a string on a text without `=` before the first `NUL`. -/
theorem read_input_of_not_mem (ng : std.num_get) (FILE : String) (s0 : Char) (read0 : ℚ)
    (file : List Char) (h : '=' ∉ std.c_str file) (hs : s0 ≠ '=') :
    read_input ng FILE s0 read0 file = some (.ok [-1]) :=
  read_input.loop_of_not_mem ng FILE 107 110 (fun _ => s0) (fun _ _ => hs)
    ((std.c_str file).length + 2) ⟨std.istream.on (std.c_str file), s0, read0, [-1]⟩ rfl
    (by simp only [istream_on_good, if_true]; exact le_refl _) h hs

end file

namespace file

theorem not_mem_takeWhile_isDigit (l : List Char) : '=' ∉ l.takeWhile Char.isDigit := by
  intro h
  have := List.mem_takeWhile_imp h
  revert this
  decide

/-- The digits, the point and the digits behind it are a prefix without `=`. -/
theorem scenario.decimal_unsigned (l : List Char) :
    ∃ pre, l = pre ++ (match l.dropWhile Char.isDigit with
        | '.' :: r => (r.takeWhile Char.isDigit, r.dropWhile Char.isDigit)
        | unread => (([] : List Char), unread)).2 ∧ '=' ∉ pre := by
  have hd := not_mem_takeWhile_isDigit l
  split
  · next r hr =>
    refine ⟨l.takeWhile Char.isDigit ++ '.' :: r.takeWhile Char.isDigit, ?_, ?_⟩
    · conv_lhs => rw [← List.takeWhile_append_dropWhile Char.isDigit l, hr]
      simp [List.takeWhile_append_dropWhile]
    · intro h
      rcases List.mem_append.mp h with h | h
      · exact hd h
      · rcases List.mem_cons.mp h with h | h
        · revert h
          decide
        · exact not_mem_takeWhile_isDigit r h
  · exact ⟨l.takeWhile Char.isDigit, (List.takeWhile_append_dropWhile _ _).symm, hd⟩

theorem scenario.decimal_scan_snd (buf : List Char) :
    (scenario.decimal.scan buf).2 =
      (match (match buf with
          | '-' :: r => (true, r)
          | '+' :: r => (false, r)
          | _ => (false, buf) : Bool × List Char).2.dropWhile Char.isDigit with
        | '.' :: r => (r.takeWhile Char.isDigit, r.dropWhile Char.isDigit)
        | unread => (([] : List Char), unread)).2 := by
  simp only [scenario.decimal]
  split_ifs <;> rfl

theorem scenario.decimal_sign (buf : List Char) :
    ∃ pre, buf = pre ++ (match buf with
        | '-' :: r => (true, r)
        | '+' :: r => (false, r)
        | _ => (false, buf) : Bool × List Char).2 ∧ '=' ∉ pre := by
  split
  · exact ⟨['-'], rfl, by decide⟩
  · exact ⟨['+'], rfl, by decide⟩
  · exact ⟨[], rfl, List.not_mem_nil _⟩

/-- The reader of decimal numbers does what the standard says of `num_get`. -/
theorem scenario.decimal_lawful : scenario.decimal.lawful := by
  intro buf
  obtain ⟨pre, hpre, hnot⟩ := scenario.decimal_unsigned
    (match buf with
      | '-' :: r => (true, r)
      | '+' :: r => (false, r)
      | _ => (false, buf) : Bool × List Char).2
  obtain ⟨pre0, h0, hn0⟩ := scenario.decimal_sign buf
  refine ⟨pre0 ++ pre, ?_, ?_⟩
  · rw [scenario.decimal_scan_snd, List.append_assoc, ← hpre, ← h0]
  · intro h
    rcases List.mem_append.mp h with h | h
    · exact hn0 h
    · exact hnot h

end file

namespace file

theorem scenario.decimal_scan_one : scenario.decimal.scan ['1'] = (some 1, []) := by
  have h : scenario.decimal.scan ['1'] =
      (some ((1 : ℚ) * (((1 : ℕ) : ℚ) + ((0 : ℕ) : ℚ) / 10 ^ 0)), []) := rfl
  rw [h]
  norm_num

/-- The overload for a file name reads the parameter behind the `NUL`. -/
theorem read_input_file_nul (FILE : String) (s0 : Char) (read0 : ℚ) (filename : String) :
    read_input_file scenario.decimal FILE scenario.fs s0 read0 filename
      = some (.ok [-1, 1]) := by
  have hb1 := read_input.body_other scenario.decimal FILE 44 47 id
    ⟨std.istream.on scenario.nul_text, s0, read0, [-1]⟩ rfl rfl 'a'
    [Char.ofNat 0, '=', '1'] rfl (by decide)
  have hb2 := read_input.body_other scenario.decimal FILE 44 47 id
    ⟨{ std.istream.on scenario.nul_text with buf := [Char.ofNat 0, '=', '1'] }, 'a', read0,
      [-1]⟩ rfl rfl (Char.ofNat 0) ['=', '1'] rfl (by decide)
  have hb3 := read_input.body_eq_some scenario.decimal FILE 44 47 id
    ⟨{ std.istream.on scenario.nul_text with buf := ['=', '1'] }, Char.ofNat 0, read0, [-1]⟩
    rfl rfl ['1'] rfl '1' [] [] 1 rfl scenario.decimal_scan_one
  have hg0 : (std.istream.on scenario.nul_text).good = true := rfl
  have hg1 : ({ std.istream.on scenario.nul_text with buf := [Char.ofNat 0, '=', '1'] }
      : std.istream).good = true := rfl
  have hg2 : ({ std.istream.on scenario.nul_text with buf := ['=', '1'] }
      : std.istream).good = true := rfl
  have hg3 : ({ std.istream.on scenario.nul_text with buf := [], eofbit := true }
      : std.istream).good = false := rfl
  simp only [read_input_file, scenario.fs, id] at hb1 hb2 hb3 ⊢
  have hlen : scenario.nul_text.length + 2 = 6 := rfl
  rw [hlen]
  simp only [read_input.loop, hg0, if_true, hb1, hg1, hb2, hg2, hb3]
  rfl

/-- The overload for a string on the text with a `NUL`: what it does with the `=`
behind the `NUL` depends on nothing but the value that `s` holds by accident. -/
theorem read_input_nul (ng : std.num_get) (FILE : String) (s0 : Char) (read0 : ℚ) :
    read_input ng FILE s0 read0 scenario.nul_text =
      if s0 = '=' then
        some (.error ⟨"Error while reading parameter. Is there a character behind = ?\n",
          FILE, 107⟩)
      else some (.ok [-1]) := by
  have hc : std.c_str scenario.nul_text = ['a'] := by decide
  split_ifs with hs
  · have hb1 := read_input.body_other ng FILE 107 110 (fun _ => s0)
      ⟨std.istream.on ['a'], s0, read0, [-1]⟩ rfl rfl 'a' [] rfl (by decide)
    have hb2 := read_input.body_end_eq ng FILE 107 110 (fun _ => s0)
      ⟨{ std.istream.on ['a'] with buf := [] }, 'a', read0, [-1]⟩ rfl rfl hs
    have hg0 : (std.istream.on ['a']).good = true := rfl
    have hg1 : ({ std.istream.on ['a'] with buf := [] } : std.istream).good = true := rfl
    simp only [read_input, hc]
    have hlen : (['a'] : List Char).length + 2 = 3 := rfl
    rw [hlen]
    simp only [read_input.loop, hg0, if_true, hb1, hg1, hb2]
  · exact read_input_of_not_mem ng FILE s0 read0 scenario.nul_text (by rw [hc]; decide) hs

end file

namespace file

/-- C20: the code at a failing input. The text `a`, `NUL`, `=`, `1` holds one
character `=`, with the number `1` right behind it. The overload for a string builds
its stream from `file.data()`, so it reads the text up to the `NUL` only: it returns
the vector `[-1]`, without an entry for the `=` (or it throws, when the variable `s`,
which is read without a value at the end of the text, holds a `=` by accident). The
overload for a file name, on a file with the same text, returns `[-1, 1]`. -/
theorem read_input_stops_at_nul (ng : std.num_get) (FILE : String) (s0 : Char) (read0 : ℚ)
    (filename : String) :
    scenario.nul_text.count '=' = 1 ∧
    std.c_str scenario.nul_text = ['a'] ∧
    read_input ng FILE s0 read0 scenario.nul_text =
      (if s0 = '=' then
        some (.error ⟨"Error while reading parameter. Is there a character behind = ?\n",
          FILE, 107⟩)
      else some (.ok [-1])) ∧
    read_input_file scenario.decimal FILE scenario.fs s0 read0 filename
      = some (.ok [-1, 1]) :=
  ⟨by decide, by decide, read_input_nul ng FILE s0 read0,
    read_input_file_nul FILE s0 read0 filename⟩

end file

/-! ## Padding: the size of an in-place transform -/

namespace spectral

/-- C25: for every `cols <= SIZE_MAX - 2`, the allocated column count of `TL_DFT` is
`2 (cols / 2 + 1)`, so that a padded row holds `cols / 2 + 1` complex values; it is
greater than `cols`, by `1` for odd and by `2` for even `cols`. Likewise, for every
`rows <= SIZE_MAX - 2`, the padded row count `rows - rows % 2 + 2` of `TL_DRT_DFT`,
the factor of `elements`, is `2 (rows / 2 + 1)`. -/
theorem padding_in_place_sizing (rows cols n : ℕ) (hc : cols ≤ size_t.modulus - 1 - 2)
    (hr : rows ≤ size_t.modulus - 1 - 2) :
    TotalNumberOf.columns .TL_DFT cols = 2 * (cols / 2 + 1) ∧
    TotalNumberOf.columns .TL_DFT cols / 2 = cols / 2 + 1 ∧
    cols < TotalNumberOf.columns .TL_DFT cols ∧
    (cols % 2 = 1 → TotalNumberOf.columns .TL_DFT cols = cols + 1) ∧
    (cols % 2 = 0 → TotalNumberOf.columns .TL_DFT cols = cols + 2) ∧
    size_t.add (size_t.sub rows (size_t.mod rows 2)) 2 = 2 * (rows / 2 + 1) ∧
    TotalNumberOf.elements .TL_DRT_DFT rows n = size_t.mul n (2 * (rows / 2 + 1)) := by
  have hc' : cols < size_t.modulus := by
    simp only [size_t.modulus] at *
    omega
  have hr' : rows < size_t.modulus := by
    simp only [size_t.modulus] at *
    omega
  have hcol := columns_dft_eq cols hc'
  have hrow : size_t.add (size_t.sub rows (size_t.mod rows 2)) 2 = 2 * (rows / 2 + 1) := by
    rw [size_t_sub_mod_two rows hr']
    simp only [size_t.add, size_t.modulus] at *
    norm_num at *
    omega
  refine ⟨?_, ?_, ?_, ?_, ?_, hrow, ?_⟩
  · rw [hcol]
    simp only [size_t.modulus] at *
    norm_num at *
    omega
  · rw [hcol]
    simp only [size_t.modulus] at *
    norm_num at *
    omega
  · rw [hcol]
    simp only [size_t.modulus] at *
    norm_num at *
    omega
  · rw [hcol]
    simp only [size_t.modulus] at *
    norm_num at *
    omega
  · rw [hcol]
    simp only [size_t.modulus] at *
    norm_num at *
    omega
  · simp only [TotalNumberOf.elements, hrow]

theorem padding_in_place_sizing_witness :
    (5 ≤ size_t.modulus - 1 - 2 ∧ 4 ≤ size_t.modulus - 1 - 2) ∧
    TotalNumberOf.columns .TL_DFT 5 = 2 * (5 / 2 + 1) ∧
    TotalNumberOf.columns .TL_DFT 5 / 2 = 5 / 2 + 1 ∧
    5 < TotalNumberOf.columns .TL_DFT 5 ∧
    TotalNumberOf.columns .TL_DFT 5 = 5 + 1 ∧
    size_t.add (size_t.sub 4 (size_t.mod 4 2)) 2 = 2 * (4 / 2 + 1) ∧
    TotalNumberOf.elements .TL_DRT_DFT 4 3 = size_t.mul 3 (2 * (4 / 2 + 1)) :=
  have h := padding_in_place_sizing 4 5 3 (by decide) (by decide)
  ⟨⟨by decide, by decide⟩, h.1, h.2.1, h.2.2.1, h.2.2.2.1 (by decide), h.2.2.2.2.2.1,
    h.2.2.2.2.2.2⟩

end spectral

/-! ## The range of the gyro-averaging factors -/

namespace toefl

/-- The quotient `1 / (1 - 0.5 c l)` for `c >= 0` and `l <= 0`. -/
theorem one_div_range (c l : ℚ) (hc : 0 ≤ c) (hl : l ≤ 0) :
    1 ≤ 1 - 0.5 * c * l ∧ 0 < 1 / (1 - 0.5 * c * l) ∧ 1 / (1 - 0.5 * c * l) ≤ 1 ∧
    (1 / (1 - 0.5 * c * l) = 1 ↔ c * l = 0) := by
  have h1 : c * l ≤ 0 := mul_nonpos_of_nonneg_of_nonpos hc hl
  have hden : 1 ≤ 1 - 0.5 * c * l := by
    have : (0.5 : ℚ) * c * l = 0.5 * (c * l) := by ring
    rw [this]
    norm_num
    linarith
  have hpos : 0 < 1 - 0.5 * c * l := by linarith
  refine ⟨hden, by positivity, ?_, ?_⟩
  · rw [div_le_one hpos]
    exact hden
  · rw [div_eq_one_iff_eq (ne_of_gt hpos)]
    constructor
    · intro h
      have : (0.5 : ℚ) * c * l = 0 := by linarith
      have h2 : (0.5 : ℚ) * (c * l) = 0 := by rw [← this]; ring
      rcases mul_eq_zero.mp h2 with h3 | h3
      · norm_num at h3
      · exact h3
    · intro h
      have : (0.5 : ℚ) * c * l = 0.5 * (c * l) := by ring
      rw [this, h]
      norm_num

/-- The quotient `1 / (1 - 0.5 c l)` does not decrease in `l` on `l <= 0`. -/
theorem one_div_mono (c l1 l2 : ℚ) (hc : 0 ≤ c) (h12 : l1 ≤ l2) (hl : l2 ≤ 0) :
    1 / (1 - 0.5 * c * l1) ≤ 1 / (1 - 0.5 * c * l2) := by
  have h1 := (one_div_range c l1 hc (le_trans h12 hl)).1
  have h2 := (one_div_range c l2 hc hl).1
  apply one_div_le_one_div_of_le (by linarith)
  have : c * l1 ≤ c * l2 := mul_le_mul_of_nonneg_left h12 hc
  have e1 : (0.5 : ℚ) * c * l1 = 0.5 * (c * l1) := by ring
  have e2 : (0.5 : ℚ) * c * l2 = 0.5 * (c * l2) := by ring
  rw [e1, e2]
  norm_num
  linarith

theorem den_eq_zero_iff (c l : ℚ) : 1 - 0.5 * c * l = 0 ↔ c * l = 2 := by
  constructor
  · intro h
    have e1 : (0.5 : ℚ) * c * l = 0.5 * (c * l) := by ring
    rw [e1] at h
    norm_num at h
    linarith
  · intro h
    have e1 : (0.5 : ℚ) * c * l = 0.5 * (c * l) := by ring
    rw [e1, h]
    norm_num

end toefl

namespace toefl

theorem Poisson.gamma1_i_of_ne (p : Poisson) (l : ℚ)
    (h : 1 - 0.5 * p.tau_i * p.mu_i * l ≠ 0) :
    p.gamma1_i l = double.fin (1 / (1 - 0.5 * p.tau_i * p.mu_i * l)) := by
  simp only [Poisson.gamma1_i, double.one_eq]
  exact double.fin_div_of_ne _ _ h

theorem Poisson.gamma1_z_of_ne (p : Poisson) (l : ℚ)
    (h : 1 - 0.5 * p.tau_z * p.mu_z * l ≠ 0) :
    p.gamma1_z l = double.fin (1 / (1 - 0.5 * p.tau_z * p.mu_z * l)) := by
  simp only [Poisson.gamma1_z, double.one_eq]
  exact double.fin_div_of_ne _ _ h

/-- The range of one factor `1 / (1 - 0.5 tau mu laplace)`, in the form that both
`gamma1_i` and `gamma1_z` take. -/
theorem gamma1_range_aux (tau mu laplace : ℚ) (g1 : ℚ → double)
    (hg1 : ∀ l, 1 - 0.5 * tau * mu * l ≠ 0 → g1 l = double.fin (1 / (1 - 0.5 * tau * mu * l)))
    (hc : 0 ≤ tau * mu) (hl : laplace ≤ 0) :
    1 ≤ 1 - 0.5 * tau * mu * laplace ∧
    ∃ g : ℚ, g1 laplace = double.fin g ∧ 0 < g ∧ g ≤ 1 ∧ (g = 1 ↔ tau * mu * laplace = 0) ∧
      ∀ l : ℚ, l ≤ laplace → ∃ g0 : ℚ, g1 l = double.fin g0 ∧ g0 ≤ g := by
  have e : ∀ l : ℚ, 0.5 * tau * mu * l = 0.5 * (tau * mu) * l := fun l => by ring
  have h := one_div_range (tau * mu) laplace hc hl
  rw [← e] at h
  have hne : 1 - 0.5 * tau * mu * laplace ≠ 0 := by
    have := h.1
    intro h0
    rw [h0] at this
    norm_num at this
  refine ⟨h.1, _, hg1 laplace hne, h.2.1, h.2.2.1, h.2.2.2, ?_⟩
  intro l hle
  have h' := one_div_range (tau * mu) l hc (le_trans hle hl)
  rw [← e] at h'
  have hne' : 1 - 0.5 * tau * mu * l ≠ 0 := by
    have := h'.1
    intro h0
    rw [h0] at this
    norm_num at this
  refine ⟨_, hg1 l hne', ?_⟩
  have hm := one_div_mono (tau * mu) l laplace hc hle hl
  rw [← e, ← e] at hm
  exact hm

end toefl

/-! ## The factor `gamma0` -/

namespace toefl

theorem one_sub_eq_zero_iff (c l : ℚ) : 1 - c * l = 0 ↔ c * l = 1 := by
  constructor <;> intro h <;> linarith

theorem half_den_ne_zero (t m l : ℚ) (h : t * m * l = 1) : 1 - 0.5 * t * m * l ≠ 0 := by
  have e : (0.5 : ℚ) * t * m * l = 0.5 * (t * m * l) := by ring
  rw [e, h]
  norm_num

/-- The closure without impurities returns finite values where `rho` and the
denominator of `gamma1_i` are not zero. -/
theorem Poisson.closure2_isFinite (b : Build) (p : Poisson) (c : std.array 2) (laplace : ℚ)
    (hrho : p.a_i * p.mu_i * laplace ≠ 0) (hden : 1 - 0.5 * p.tau_i * p.mu_i * laplace ≠ 0) :
    ∃ phi : std.array 2, p.operator2 b c laplace = .ok phi ∧
      (phi 0).isFinite = true ∧ (phi 1).isFinite = true := by
  have hl : laplace ≠ 0 := fun h => hrho (by rw [h, mul_zero])
  refine ⟨_, Poisson.operator2_ok b p c laplace hl, ?_, ?_⟩
  · simp [hrho]
  · simp [hrho, Poisson.gamma1_i_of_ne p laplace hden]

/-- The closure with impurities returns finite values where `rho` and the
denominators of `gamma1_i` and `gamma1_z` are not zero. -/
theorem Poisson.closure3_isFinite (b : Build) (p : Poisson) (c : std.array 3) (laplace : ℚ)
    (hrho : (p.a_i * p.mu_i + p.a_z * p.mu_z) * laplace ≠ 0)
    (hi : 1 - 0.5 * p.tau_i * p.mu_i * laplace ≠ 0)
    (hz : 1 - 0.5 * p.tau_z * p.mu_z * laplace ≠ 0) :
    ∃ phi : std.array 3, p.operator3 b c laplace = .ok phi ∧
      (phi 0).isFinite = true ∧ (phi 1).isFinite = true ∧ (phi 2).isFinite = true := by
  have hl : laplace ≠ 0 := fun h => hrho (by rw [h, mul_zero])
  refine ⟨_, Poisson.operator3_ok b p c laplace hl, ?_, ?_, ?_⟩
  · simp [hrho]
  · simp [hrho, Poisson.gamma1_i_of_ne p laplace hi]
  · have h21 : ((2 : Fin 3) = 0) = False := by decide
    have h22 : ((2 : Fin 3) = 1) = False := by decide
    simp [hrho, Poisson.gamma1_z_of_ne p laplace hz, h21, h22]

/-- C23: for every `laplace`, `gamma0_i( laplace)` is `1 / (1 - tau_i mu_i laplace)`
and `gamma0_z( laplace)` is `1 / (1 - tau_z mu_z laplace)`, the finite quotient where
the denominator is not zero and no finite value where it is; the denominator vanishes
exactly when `tau mu laplace = 1`, that is at `laplace = 1 / (tau mu)` for
`tau mu != 0`. Neither closure nor assembly uses `gamma0`: where `gamma0_i`, or
`gamma0_z`, is not finite, the coefficients of the closure and the matrix of the
assembly are finite as soon as `rho` and the denominators of `gamma1` are not zero. -/
theorem gamma0_formula (b : Build) (phys : Physical) (mhw : Bool) (laplace x y : ℚ) :
    ((Poisson.ctor phys).gamma0_i laplace =
      if 1 - phys.tau 0 * phys.mu 0 * laplace = 0 then double.nonfinite
      else double.fin (1 / (1 - phys.tau 0 * phys.mu 0 * laplace))) ∧
    ((Poisson.ctor phys).gamma0_z laplace =
      if 1 - phys.tau 1 * phys.mu 1 * laplace = 0 then double.nonfinite
      else double.fin (1 / (1 - phys.tau 1 * phys.mu 1 * laplace))) ∧
    (1 - phys.tau 0 * phys.mu 0 * laplace = 0 ↔ phys.tau 0 * phys.mu 0 * laplace = 1) ∧
    (1 - phys.tau 1 * phys.mu 1 * laplace = 0 ↔ phys.tau 1 * phys.mu 1 * laplace = 1) ∧
    (phys.tau 0 * phys.mu 0 ≠ 0 →
      (phys.tau 0 * phys.mu 0 * laplace = 1 ↔ laplace = 1 / (phys.tau 0 * phys.mu 0))) ∧
    (phys.tau 1 * phys.mu 1 ≠ 0 →
      (phys.tau 1 * phys.mu 1 * laplace = 1 ↔ laplace = 1 / (phys.tau 1 * phys.mu 1))) ∧
    (phys.tau 0 * phys.mu 0 * laplace = 1 → phys.a 0 * phys.mu 0 * laplace ≠ 0 →
      (Poisson.ctor phys).gamma0_i laplace = double.nonfinite ∧
      ∃ phi : std.array 2, ∃ M : QuadMat 2,
        (∀ c, (Poisson.ctor phys).operator2 b c laplace = .ok phi) ∧
        (phi 0).isFinite = true ∧ (phi 1).isFinite = true ∧
        (∀ c, (Equations.ctor phys mhw).operator2 b c laplace ⟨double.fin x, double.fin y⟩
          = .ok M) ∧
        M.isFinite) ∧
    (phys.tau 1 * phys.mu 1 * laplace = 1 →
      (phys.a 0 * phys.mu 0 + phys.a 1 * phys.mu 1) * laplace ≠ 0 →
      1 - 0.5 * phys.tau 0 * phys.mu 0 * laplace ≠ 0 →
      (Poisson.ctor phys).gamma0_z laplace = double.nonfinite ∧
      ∃ phi : std.array 3, ∃ M : QuadMat 3,
        (∀ c, (Poisson.ctor phys).operator3 b c laplace = .ok phi) ∧
        (phi 0).isFinite = true ∧ (phi 1).isFinite = true ∧ (phi 2).isFinite = true ∧
        (∀ c, (Equations.ctor phys mhw).operator3 b c laplace ⟨double.fin x, double.fin y⟩
          = .ok M) ∧
        M.isFinite) := by
  have g0i : (Poisson.ctor phys).gamma0_i laplace =
      if 1 - phys.tau 0 * phys.mu 0 * laplace = 0 then double.nonfinite
      else double.fin (1 / (1 - phys.tau 0 * phys.mu 0 * laplace)) := by
    simp only [Poisson.gamma0_i, Poisson.ctor, double.one_eq, double.fin_div]
  have g0z : (Poisson.ctor phys).gamma0_z laplace =
      if 1 - phys.tau 1 * phys.mu 1 * laplace = 0 then double.nonfinite
      else double.fin (1 / (1 - phys.tau 1 * phys.mu 1 * laplace)) := by
    simp only [Poisson.gamma0_z, Poisson.ctor, double.one_eq, double.fin_div]
  refine ⟨g0i, g0z, one_sub_eq_zero_iff _ _, one_sub_eq_zero_iff _ _, ?_, ?_, ?_, ?_⟩
  · intro h
    rw [eq_div_iff h, mul_comm]
  · intro h
    rw [eq_div_iff h, mul_comm]
  · intro hpole hrho
    have hl : laplace ≠ 0 := fun h => hrho (by rw [h, mul_zero])
    have hden := half_den_ne_zero _ _ _ hpole
    obtain ⟨phi, hphi, f0, f1⟩ := Poisson.closure2_isFinite b (Poisson.ctor phys)
      (std.array.uninitialized 2) laplace hrho hden
    obtain ⟨M, hM⟩ := Equations.operator2_total b (Equations.ctor phys mhw) laplace
      ⟨double.fin x, double.fin y⟩
    obtain ⟨M', hM', hfin⟩ := Equations.operator2_isFinite b (Equations.ctor phys mhw)
      (scenario.coeff 2) laplace x y
    have hMM : M' = M := Except.ok.inj ((hM' ▸ hM (scenario.coeff 2) : Except.ok M' = _))
    refine ⟨by rw [g0i, if_pos ((one_sub_eq_zero_iff _ _).mpr hpole)], phi, M, ?_, f0, f1,
      hM, ?_⟩
    · intro c
      rw [Poisson.operator2_ok b _ c laplace hl, ← hphi,
        Poisson.operator2_ok b _ _ laplace hl]
    · rw [← hMM]
      exact hfin.mpr (Or.inr ⟨hrho, hden⟩)
  · intro hpole hrho hi
    have hl : laplace ≠ 0 := fun h => hrho (by rw [h, mul_zero])
    have hz := half_den_ne_zero _ _ _ hpole
    obtain ⟨phi, hphi, f0, f1, f2⟩ := Poisson.closure3_isFinite b (Poisson.ctor phys)
      (std.array.uninitialized 3) laplace hrho hi hz
    obtain ⟨M, hM⟩ := Equations.operator3_total b (Equations.ctor phys mhw) laplace
      ⟨double.fin x, double.fin y⟩
    obtain ⟨M', hM', hfin⟩ := Equations.operator3_isFinite b (Equations.ctor phys mhw)
      (scenario.coeff 3) laplace x y
    have hMM : M' = M := Except.ok.inj ((hM' ▸ hM (scenario.coeff 3) : Except.ok M' = _))
    refine ⟨by rw [g0z, if_pos ((one_sub_eq_zero_iff _ _).mpr hpole)], phi, M, ?_, f0, f1,
      f2, hM, ?_⟩
    · intro c
      rw [Poisson.operator3_ok b _ c laplace hl, ← hphi,
        Poisson.operator3_ok b _ _ laplace hl]
    · rw [← hMM]
      exact hfin.mpr (Or.inr ⟨hrho, hi, hz⟩)

end toefl

/-! ## The entries in rational arithmetic -/

namespace toefl

/-- The entries of the assembly without impurities where nothing is divided by zero,
at a finite `dy = x + i y`. -/
theorem Equations.operator2_finite (b : Build) (e : Equations) (c : QuadMat 2)
    (laplace x y : ℚ) (hrho : e.p.a_i * e.p.mu_i * laplace ≠ 0)
    (hden : 1 - 0.5 * e.p.tau_i * e.p.mu_i * laplace ≠ 0) :
    ∃ M : QuadMat 2, e.operator2 b c laplace ⟨double.fin x, double.fin y⟩ = .ok M ∧
      M 0 0 = ⟨double.fin ((x * e.g_e + x * e.kappa_y
                  + spec.d_eff e.mhw e.dd ⟨double.fin x, double.fin y⟩)
                * (1 / (e.p.a_i * e.p.mu_i * laplace)) - x * e.kappa_y
                - spec.d_eff e.mhw e.dd ⟨double.fin x, double.fin y⟩
                - spec.visc e.nu laplace),
              double.fin ((y * e.g_e + y * e.kappa_y)
                * (1 / (e.p.a_i * e.p.mu_i * laplace)) - y * e.kappa_y)⟩ ∧
      M 0 1 = ⟨double.fin ((x * e.g_e + x * e.kappa_y
                  + spec.d_eff e.mhw e.dd ⟨double.fin x, double.fin y⟩)
                * (-e.p.a_i * (1 / (1 - 0.5 * e.p.tau_i * e.p.mu_i * laplace))
                    / (e.p.a_i * e.p.mu_i * laplace))),
              double.fin ((y * e.g_e + y * e.kappa_y)
                * (-e.p.a_i * (1 / (1 - 0.5 * e.p.tau_i * e.p.mu_i * laplace))
                    / (e.p.a_i * e.p.mu_i * laplace)))⟩ ∧
      M 1 0 = ⟨double.fin ((x * e.g_i * (1 / (1 - 0.5 * e.p.tau_i * e.p.mu_i * laplace))
                  + x * e.kappa_y * (1 / (1 - 0.5 * e.p.tau_i * e.p.mu_i * laplace)))
                * (1 / (e.p.a_i * e.p.mu_i * laplace))),
              double.fin ((y * e.g_i * (1 / (1 - 0.5 * e.p.tau_i * e.p.mu_i * laplace))
                  + y * e.kappa_y * (1 / (1 - 0.5 * e.p.tau_i * e.p.mu_i * laplace)))
                * (1 / (e.p.a_i * e.p.mu_i * laplace)))⟩ ∧
      M 1 1 = ⟨double.fin ((x * e.g_i * (1 / (1 - 0.5 * e.p.tau_i * e.p.mu_i * laplace))
                  + x * e.kappa_y * (1 / (1 - 0.5 * e.p.tau_i * e.p.mu_i * laplace)))
                * (-e.p.a_i * (1 / (1 - 0.5 * e.p.tau_i * e.p.mu_i * laplace))
                    / (e.p.a_i * e.p.mu_i * laplace))
                + x * e.kappa_y * e.tau_i - spec.visc e.nu laplace),
              double.fin ((y * e.g_i * (1 / (1 - 0.5 * e.p.tau_i * e.p.mu_i * laplace))
                  + y * e.kappa_y * (1 / (1 - 0.5 * e.p.tau_i * e.p.mu_i * laplace)))
                * (-e.p.a_i * (1 / (1 - 0.5 * e.p.tau_i * e.p.mu_i * laplace))
                    / (e.p.a_i * e.p.mu_i * laplace))
                + y * e.kappa_y * e.tau_i)⟩ := by
  have hl : laplace ≠ 0 := fun h => hrho (by rw [h, mul_zero])
  obtain ⟨phi, M, hphi, hM, h00, h01, h10, h11⟩ :=
    Equations.operator2_of_ne b e c laplace ⟨double.fin x, double.fin y⟩ hl
  have hphi' := Poisson.operator2_unique b _ laplace hl phi hphi
  have hg := Poisson.gamma1_i_of_ne e.p laplace hden
  have h10f : ((1 : Fin 2) = 0) = False := by decide
  have p0 : phi 0 = double.fin (1 / (e.p.a_i * e.p.mu_i * laplace)) := by
    rw [hphi']
    simp only [if_true, double.one_eq, double.fin_div_of_ne _ _ hrho]
  have p1 : phi 1 = double.fin (-e.p.a_i * (1 / (1 - 0.5 * e.p.tau_i * e.p.mu_i * laplace))
      / (e.p.a_i * e.p.mu_i * laplace)) := by
    rw [hphi']
    simp only [h10f, if_false, hg, double.fin_mul_fin, double.fin_div_of_ne _ _ hrho]
  refine ⟨M, hM, ?_, ?_, ?_, ?_⟩
  · rw [h00, p0]
    simp only [spec.P, spec.curv, complex.double_mul_eq, complex.mul_double_eq,
      complex.add_eq, complex.sub_eq, complex.add_double_eq, complex.sub_double_eq,
      double.fin_mul_fin, double.fin_add_fin, double.fin_sub_fin]
  · rw [h01, p1]
    simp only [spec.P, spec.curv, complex.double_mul_eq, complex.mul_double_eq,
      complex.add_eq, complex.sub_eq, complex.add_double_eq, complex.sub_double_eq,
      double.fin_mul_fin, double.fin_add_fin, double.fin_sub_fin]
  · rw [h10, p0, hg]
    simp only [spec.Q, spec.curv, complex.double_mul_eq, complex.mul_double_eq,
      complex.add_eq, complex.sub_eq, complex.add_double_eq, complex.sub_double_eq,
      double.fin_mul_fin, double.fin_add_fin, double.fin_sub_fin]
  · rw [h11, p1, hg]
    simp only [spec.Q, spec.curv, complex.double_mul_eq, complex.mul_double_eq,
      complex.add_eq, complex.sub_eq, complex.add_double_eq, complex.sub_double_eq,
      double.fin_mul_fin, double.fin_add_fin, double.fin_sub_fin]

end toefl

/-! ## Zonal modes of the modified variant -/

namespace toefl

theorem spec.d_eff_zonal (d : ℚ) : spec.d_eff true d ⟨double.fin 0, double.fin 0⟩ = 0 := by
  simp [spec.d_eff, complex.ofDouble]

/-- The assembly without impurities at a zonal mode of the modified variant. -/
theorem Equations.operator2_zonal (b : Build) (e : Equations) (c : QuadMat 2) (laplace : ℚ)
    (hm : e.mhw = true) (hrho : e.p.a_i * e.p.mu_i * laplace ≠ 0)
    (hden : 1 - 0.5 * e.p.tau_i * e.p.mu_i * laplace ≠ 0) :
    ∃ M : QuadMat 2, e.operator2 b c laplace ⟨double.fin 0, double.fin 0⟩ = .ok M ∧
      ∀ i j, M i j = if i = j then ⟨double.fin (-(e.nu * laplace ^ 2)), double.fin 0⟩
        else ⟨double.fin 0, double.fin 0⟩ := by
  obtain ⟨M, hM, h00, h01, h10, h11⟩ :=
    Equations.operator2_finite b e c laplace 0 0 hrho hden
  refine ⟨M, hM, ?_⟩
  intro i j
  fin_cases i <;> fin_cases j
  · show M 0 0 = _
    rw [h00, hm, spec.d_eff_zonal]
    simp [spec.visc]
  · show M 0 1 = _
    rw [h01, hm, spec.d_eff_zonal]
    simp
  · show M 1 0 = _
    rw [h10]
    simp
  · show M 1 1 = _
    rw [h11]
    simp [spec.visc]

/-- The assembly with impurities at a zonal mode of the modified variant. -/
theorem Equations.operator3_zonal (b : Build) (e : Equations) (c : QuadMat 3) (laplace : ℚ)
    (hm : e.mhw = true) (hrho : (e.p.a_i * e.p.mu_i + e.p.a_z * e.p.mu_z) * laplace ≠ 0)
    (hi : 1 - 0.5 * e.p.tau_i * e.p.mu_i * laplace ≠ 0)
    (hz : 1 - 0.5 * e.p.tau_z * e.p.mu_z * laplace ≠ 0) :
    ∃ M : QuadMat 3, e.operator3 b c laplace ⟨double.fin 0, double.fin 0⟩ = .ok M ∧
      ∀ i j, M i j = if i = j then ⟨double.fin (-(e.nu * laplace ^ 2)), double.fin 0⟩
        else ⟨double.fin 0, double.fin 0⟩ := by
  have hl : laplace ≠ 0 := fun h => hrho (by rw [h, mul_zero])
  obtain ⟨phi, M, hphi, hM, h00, h01, h02, h10, h11, h12, h20, h21, h22⟩ :=
    Equations.operator3_of_ne b e c laplace ⟨double.fin 0, double.fin 0⟩ hl
  have hphi' := Poisson.operator3_unique b _ laplace hl phi hphi
  have hgi := Poisson.gamma1_i_of_ne e.p laplace hi
  have hgz := Poisson.gamma1_z_of_ne e.p laplace hz
  have f10 : ((1 : Fin 3) = 0) = False := by decide
  have f20 : ((2 : Fin 3) = 0) = False := by decide
  have f21 : ((2 : Fin 3) = 1) = False := by decide
  have p0 : phi 0 = double.fin (1 / ((e.p.a_i * e.p.mu_i + e.p.a_z * e.p.mu_z) * laplace)) := by
    rw [hphi']
    simp only [if_true, double.one_eq, double.fin_div_of_ne _ _ hrho]
  have p1 : phi 1 = double.fin (-e.p.a_i * (1 / (1 - 0.5 * e.p.tau_i * e.p.mu_i * laplace)) /
      ((e.p.a_i * e.p.mu_i + e.p.a_z * e.p.mu_z) * laplace)) := by
    rw [hphi']
    simp only [f10, if_false, if_true, hgi, double.fin_mul_fin,
      double.fin_div_of_ne _ _ hrho]
  have p2 : phi 2 = double.fin (-e.p.a_z * (1 / (1 - 0.5 * e.p.tau_z * e.p.mu_z * laplace)) /
      ((e.p.a_i * e.p.mu_i + e.p.a_z * e.p.mu_z) * laplace)) := by
    rw [hphi']
    simp only [f20, f21, if_false, hgz, double.fin_mul_fin,
      double.fin_div_of_ne _ _ hrho]
  refine ⟨M, hM, ?_⟩
  intro i j
  fin_cases i <;> fin_cases j
  · show M 0 0 = _
    rw [h00, p0, hm, spec.d_eff_zonal]
    simp [spec.P, spec.curv, spec.visc]
  · show M 0 1 = _
    rw [h01, p1, hm, spec.d_eff_zonal]
    simp [spec.P, spec.curv]
  · show M 0 2 = _
    rw [h02, p2, hm, spec.d_eff_zonal]
    simp [spec.P, spec.curv]
  · show M 1 0 = _
    rw [h10, p0, hgi]
    simp [spec.Q, spec.curv]
  · show M 1 1 = _
    rw [h11, p1, hgi]
    simp [spec.Q, spec.curv, spec.visc]
  · show M 1 2 = _
    rw [h12, p2, hgi]
    simp [spec.Q, spec.curv]
  · show M 2 0 = _
    rw [h20, p0, hgz]
    simp [spec.R, spec.curv]
  · show M 2 1 = _
    rw [h21, p1, hgz]
    simp [spec.R, spec.curv]
  · show M 2 2 = _
    rw [h22, p2, hgz]
    simp [spec.R, spec.curv, spec.visc]

end toefl

/-! ## The pole of `gamma1` in the assembly -/

namespace toefl

theorem Poisson.gamma1_i_of_eq (p : Poisson) (l : ℚ)
    (h : 1 - 0.5 * p.tau_i * p.mu_i * l = 0) : p.gamma1_i l = double.nonfinite := by
  simp only [Poisson.gamma1_i, double.one_eq, h]
  exact double.fin_div_zero _

/-- The ion row of the assembly without impurities is not finite where the
denominator of `gamma1_i` vanishes. -/
theorem Equations.operator2_pole (b : Build) (e : Equations) (c : QuadMat 2)
    (laplace : ℚ) (dy : complex) (hl : laplace ≠ 0)
    (hden : 1 - 0.5 * e.p.tau_i * e.p.mu_i * laplace = 0) :
    ∃ M : QuadMat 2, e.operator2 b c laplace dy = .ok M ∧
      (M 0 1).re = double.nonfinite ∧ (M 1 0).re = double.nonfinite ∧
      (M 1 1).re = double.nonfinite := by
  obtain ⟨phi, M, hphi, hM, -, h01, h10, h11⟩ :=
    Equations.operator2_of_ne b e c laplace dy hl
  have hphi' := Poisson.operator2_unique b _ laplace hl phi hphi
  have hg := Poisson.gamma1_i_of_eq e.p laplace hden
  have h10f : ((1 : Fin 2) = 0) = False := by decide
  have p1 : phi 1 = double.nonfinite := by
    rw [hphi']
    simp only [h10f, if_false, hg, double.mul_nonfinite, double.nonfinite_div]
  refine ⟨M, hM, ?_, ?_, ?_⟩
  · rw [h01, p1]
    simp
  · rw [h10, hg]
    simp [spec.Q]
  · rw [h11, p1]
    simp

end toefl

/-! ## Zonal modes and linear damping -/

namespace toefl

theorem gamma0_formula_witness :
    ((Poisson.ctor scenario.phys).gamma0_i 1 = double.nonfinite ∧
      ∃ phi : std.array 2, ∃ M : QuadMat 2,
        (∀ c, (Poisson.ctor scenario.phys).operator2 scenario.build c 1 = .ok phi) ∧
        (phi 0).isFinite = true ∧ (phi 1).isFinite = true ∧
        (∀ c, (Equations.ctor scenario.phys false).operator2 scenario.build c 1
          ⟨double.fin 0, double.fin 2⟩ = .ok M) ∧
        M.isFinite) :=
  (gamma0_formula scenario.build scenario.phys false 1 0 2).2.2.2.2.2.2.1
    (by norm_num [scenario.phys]) (by norm_num [scenario.phys])

end toefl

/-! ## The label of a time -/

namespace file

theorem digitChar_isDigit (d : ℕ) (h : d < 10) : (Nat.digitChar d).isDigit = true := by
  interval_cases d <;> rfl

theorem digitChar_value (d : ℕ) (h : d < 10) : (Nat.digitChar d).toNat - '0'.toNat = d := by
  interval_cases d <;> rfl

theorem digitChar_ne_zero (d : ℕ) (h : d < 10) (h0 : d ≠ 0) : Nat.digitChar d ≠ '0' := by
  interval_cases d <;> first | exact absurd rfl h0 | decide

theorem isDigit_not_isspace (c : Char) (h : c.isDigit = true) : std.isspace c = false := by
  have h1 : 48 ≤ c.val := by
    simp only [Char.isDigit, Bool.and_eq_true, decide_eq_true_eq] at h
    exact h.1
  have h1n : 48 ≤ c.val.toNat := h1
  have hne : ∀ d : Char, d.val.toNat < 48 → c ≠ d := by
    intro d hd hcd
    rw [hcd] at h1n
    omega
  simp only [std.isspace, Bool.or_eq_false_iff, decide_eq_false_iff_not]
  exact ⟨⟨⟨⟨⟨hne _ (by decide), hne _ (by decide)⟩, hne _ (by decide)⟩, hne _ (by decide)⟩,
    hne _ (by decide)⟩, hne _ (by decide)⟩

theorem isDigit_ne_nul (c : Char) (h : c.isDigit = true) : c ≠ Char.ofNat 0 := by
  intro hc
  rw [hc] at h
  revert h
  decide

theorem digits_isDigit (n : ℕ) : ∀ c ∈ std.num_put.digits n, c.isDigit = true := by
  intro c hc
  unfold std.num_put.digits at hc
  split_ifs at hc with h0
  · rw [List.mem_singleton.mp hc]
    rfl
  · rw [List.mem_reverse, List.mem_map] at hc
    obtain ⟨d, hd, rfl⟩ := hc
    exact digitChar_isDigit d (Nat.digits_lt_base (by norm_num) hd)

theorem natValue_foldr (L : List ℕ) (hL : ∀ d ∈ L, d < 10) :
    (L.map Nat.digitChar).foldr (fun c n => 10 * n + (c.toNat - '0'.toNat)) 0
      = Nat.ofDigits 10 L := by
  induction L with
  | nil => rfl
  | cons d L ih =>
    rw [List.map_cons, List.foldr_cons, ih (fun x hx => hL x (List.mem_cons_of_mem _ hx)),
      digitChar_value d (hL d (List.mem_cons_self _ _)), Nat.ofDigits_cons]
    ring

/-- The digits that `num_put` writes are those of the value. -/
theorem natValue_digits (n : ℕ) : scenario.natValue (std.num_put.digits n) = n := by
  unfold std.num_put.digits scenario.natValue
  split_ifs with h0
  · rw [h0]
    rfl
  · rw [List.foldl_reverse, natValue_foldr _ (fun d hd => Nat.digits_lt_base (by norm_num) hd),
      Nat.ofDigits_digits]

theorem natValue_replicate (k : ℕ) (ds : List Char) :
    scenario.natValue (List.replicate k '0' ++ ds) = scenario.natValue ds := by
  unfold scenario.natValue
  rw [List.foldl_append]
  congr 1
  induction k with
  | zero => rfl
  | succ k ih =>
    rw [List.replicate_succ, List.foldl_cons]
    exact ih

theorem natValue_put (width n : ℕ) :
    scenario.natValue (std.num_put.put '0' width n) = n := by
  unfold std.num_put.put List.leftpad
  rw [natValue_replicate, natValue_digits]

theorem put_isDigit (width n : ℕ) : ∀ c ∈ std.num_put.put '0' width n, c.isDigit = true := by
  intro c hc
  unfold std.num_put.put List.leftpad at hc
  rcases List.mem_append.mp hc with h | h
  · rw [(List.mem_replicate.mp h).2]
    rfl
  · exact digits_isDigit n c h

theorem digits_length_pos (n : ℕ) : 0 < (std.num_put.digits n).length := by
  unfold std.num_put.digits
  split_ifs with h0
  · decide
  · rw [List.length_reverse, List.length_map]
    exact List.length_pos.mpr (Nat.digits_ne_nil_iff_ne_zero.mpr h0)

theorem digits_length_le (n k : ℕ) (hk : 0 < k) (h : n < 10 ^ k) :
    (std.num_put.digits n).length ≤ k := by
  unfold std.num_put.digits
  split_ifs with h0
  · exact hk
  · rw [List.length_reverse, List.length_map, Nat.digits_len 10 n (by norm_num) h0]
    exact Nat.log_lt_of_lt_pow h0 h

theorem digits_head (n : ℕ) (h0 : n ≠ 0) : (std.num_put.digits n).head? ≠ some '0' := by
  unfold std.num_put.digits
  rw [if_neg h0, List.head?_reverse, List.getLast?_map,
    List.getLast?_eq_getLast _ (Nat.digits_ne_nil_iff_ne_zero.mpr h0)]
  intro h
  have hlast := Nat.getLast_digit_ne_zero 10 h0
  have hlt : (Nat.digits 10 n).getLast (Nat.digits_ne_nil_iff_ne_zero.mpr h0) < 10 :=
    Nat.digits_lt_base (by norm_num) (List.getLast_mem _)
  exact digitChar_ne_zero _ hlt hlast (Option.some.inj h)

theorem put_length (width n : ℕ) :
    (std.num_put.put '0' width n).length = max width (std.num_put.digits n).length := by
  unfold std.num_put.put
  rw [List.leftpad_length]

/-- A text that is longer than the width was not filled. -/
theorem put_head (width n : ℕ) (hw : 1 ≤ width)
    (h : width < (std.num_put.put '0' width n).length) :
    (std.num_put.put '0' width n).head? ≠ some '0' := by
  rw [put_length] at h
  have hlen : width < (std.num_put.digits n).length := by
    rcases max_cases width (std.num_put.digits n).length with ⟨h1, _⟩ | ⟨h1, _⟩
    · rw [h1] at h
      exact absurd h (lt_irrefl _)
    · rw [h1] at h
      exact h
  have h0 : n ≠ 0 := by
    intro h0
    rw [h0] at hlen
    have : (std.num_put.digits 0).length = 1 := rfl
    omega
  unfold std.num_put.put List.leftpad
  rw [Nat.sub_eq_zero_of_le (le_of_lt hlen)]
  exact digits_head n h0

end file

/-! ## Reading the label back -/

namespace file

theorem read_input.loop_step (ng : std.num_get) (FILE : String) (l1 l2 : Int)
    (declare : Char → Char) (fuel : ℕ) (st st1 : read_input.state)
    (hg : st.is.good = true) (hbody : read_input.body ng FILE l1 l2 declare st = .ok st1) :
    read_input.loop ng FILE l1 l2 declare (fuel + 1) st
      = read_input.loop ng FILE l1 l2 declare fuel st1 := by
  simp only [read_input.loop, hg, if_true, hbody]

theorem read_input.loop_done (ng : std.num_get) (FILE : String) (l1 l2 : Int)
    (declare : Char → Char) (fuel : ℕ) (st : read_input.state) (hg : st.is.good = false) :
    read_input.loop ng FILE l1 l2 declare (fuel + 1) st = some (.ok st.para) := by
  simp [read_input.loop, hg]

/-- The string overload on a text `t=` followed by a number that `num_get` reads to
the end of the text. -/
theorem read_input_label (ng : std.num_get) (FILE : String) (s0 : Char) (read0 : ℚ)
    (c : Char) (cs : List Char) (v : ℚ) (hc : std.isspace c = false)
    (hnul : Char.ofNat 0 ∉ c :: cs) (hscan : ng.scan (c :: cs) = (some v, [])) :
    read_input ng FILE s0 read0 ('t' :: '=' :: c :: cs) = some (.ok [-1, v]) := by
  have hnul' : Char.ofNat 0 ∉ 't' :: '=' :: c :: cs := by
    intro h
    rcases List.mem_cons.mp h with h | h
    · revert h
      decide
    · rcases List.mem_cons.mp h with h | h
      · revert h
        decide
      · exact hnul h
  have hdrop : (c :: cs).dropWhile std.isspace = c :: cs := by
    rw [List.dropWhile_cons, hc]
    rfl
  show read_input.loop ng FILE 107 110 (fun _ => s0)
    ((std.c_str ('t' :: '=' :: c :: cs)).length + 2)
    ⟨std.istream.on (std.c_str ('t' :: '=' :: c :: cs)), s0, read0, [-1]⟩ = _
  rw [c_str_of_not_mem _ hnul']
  show read_input.loop ng FILE 107 110 (fun _ => s0) (cs.length + 2 + 1 + 1 + 1)
    ⟨std.istream.on ('t' :: '=' :: c :: cs), s0, read0, [-1]⟩ = _
  have b1 := read_input.body_other ng FILE 107 110 (fun _ => s0)
    ⟨std.istream.on ('t' :: '=' :: c :: cs), s0, read0, [-1]⟩ rfl rfl 't' ('=' :: c :: cs) rfl
    (by decide)
  have b2 := read_input.body_eq_some ng FILE 107 110 (fun _ => s0)
    ⟨{ std.istream.on ('t' :: '=' :: c :: cs) with buf := '=' :: c :: cs }, 't', read0, [-1]⟩
    rfl rfl (c :: cs) rfl c cs [] v hdrop hscan
  have d3 := read_input.loop_done ng FILE 107 110 (fun _ => s0) (cs.length + 2)
    ⟨{ buf := [], eofbit := true, failbit := false, badbit := false }, '=', v, [-1] ++ [v]⟩
    rfl
  rw [read_input.loop_step ng FILE 107 110 _ _ _ _ (by rfl) b1,
    read_input.loop_step ng FILE 107 110 _ _ _ _ (by rfl) b2]
  exact d3

theorem to_unsigned_of_nonneg (x : ℚ) (h0 : 0 ≤ x) (h1 : ⌊x⌋ ≤ (std.UINT_MAX : ℤ)) :
    std.to_unsigned x = some ⌊x⌋.toNat := by
  unfold std.to_unsigned
  simp only [if_pos h0]
  rw [if_pos ⟨Int.floor_nonneg.mpr h0, h1⟩]

theorem floor_micro (t : ℚ) :
    ((⌊t⌋ : ℤ) : ℚ) + ((⌊(t - (⌊t⌋ : ℤ)) * 1000000⌋ : ℤ) : ℚ) / 1000000
      = ((⌊t * 1000000⌋ : ℤ) : ℚ) / 1000000 := by
  have h : t * 1000000 = (((⌊t⌋ * 1000000 : ℤ)) : ℚ) + (t - (⌊t⌋ : ℤ)) * 1000000 := by
    push_cast
    ring
  have h2 : ⌊t * 1000000⌋ = ⌊t⌋ * 1000000 + ⌊(t - (⌊t⌋ : ℤ)) * 1000000⌋ := by
    conv_lhs => rw [h]
    exact Int.floor_int_add _ _
  rw [h2]
  push_cast
  ring

theorem micro_range (t : ℚ) :
    0 ≤ (t - (⌊t⌋ : ℤ)) * 1000000 ∧ ⌊(t - (⌊t⌋ : ℤ)) * 1000000⌋ < 1000000 := by
  have h0 : 0 ≤ t - (⌊t⌋ : ℤ) := sub_nonneg.mpr (Int.floor_le t)
  have h1 : t - (⌊t⌋ : ℤ) < 1 := by
    have := Int.lt_floor_add_one t
    linarith
  refine ⟨mul_nonneg h0 (by norm_num), ?_⟩
  rw [Int.floor_lt]
  push_cast
  linarith

end file

/-! ## The reader of decimal numbers on a label -/

namespace file

theorem scenario.decimal_scan_unsigned (buf : List Char) (hm : ∀ r, buf ≠ '-' :: r)
    (hp : ∀ r, buf ≠ '+' :: r) :
    scenario.decimal.scan buf =
      (if buf.takeWhile Char.isDigit = [] ∧
          (match buf.dropWhile Char.isDigit with
            | '.' :: r => (r.takeWhile Char.isDigit, r.dropWhile Char.isDigit)
            | unread => (([] : List Char), unread)).1 = [] then
        (none, (match buf.dropWhile Char.isDigit with
            | '.' :: r => (r.takeWhile Char.isDigit, r.dropWhile Char.isDigit)
            | unread => (([] : List Char), unread)).2)
      else (some ((if false = true then -1 else 1) *
        ((scenario.natValue (buf.takeWhile Char.isDigit) : ℚ) +
          (scenario.natValue (match buf.dropWhile Char.isDigit with
            | '.' :: r => (r.takeWhile Char.isDigit, r.dropWhile Char.isDigit)
            | unread => (([] : List Char), unread)).1 : ℚ) /
          10 ^ (match buf.dropWhile Char.isDigit with
            | '.' :: r => (r.takeWhile Char.isDigit, r.dropWhile Char.isDigit)
            | unread => (([] : List Char), unread)).1.length)),
        (match buf.dropWhile Char.isDigit with
            | '.' :: r => (r.takeWhile Char.isDigit, r.dropWhile Char.isDigit)
            | unread => (([] : List Char), unread)).2)) := by
  have hs : (match buf with
      | '-' :: r => (true, r)
      | '+' :: r => (false, r)
      | _ => (false, buf) : Bool × List Char) = (false, buf) := by
    split <;> first | rfl | (exfalso; simp_all)
  simp only [scenario.decimal, hs]

/-- The reader of decimal numbers reads digits, a point and digits as the standard
says. -/
theorem scenario.decimal_reads : spec.reads_decimal scenario.decimal := by
  intro ip fp hne hip hfp
  obtain ⟨c, cs, rfl⟩ := List.exists_cons_of_ne_nil hne
  have hc : c.isDigit = true := hip c (List.mem_cons_self _ _)
  have hm : ∀ r, c :: cs ++ '.' :: fp ≠ '-' :: r := by
    intro r h
    have h1 : c = '-' := (List.cons.inj h).1
    rw [h1] at hc
    revert hc
    decide
  have hp : ∀ r, c :: cs ++ '.' :: fp ≠ '+' :: r := by
    intro r h
    have h1 : c = '+' := (List.cons.inj h).1
    rw [h1] at hc
    revert hc
    decide
  have htake : (c :: cs ++ '.' :: fp).takeWhile Char.isDigit = c :: cs := by
    rw [List.takeWhile_append_of_pos hip]
    simp
  have hdrop : (c :: cs ++ '.' :: fp).dropWhile Char.isDigit = '.' :: fp := by
    rw [List.dropWhile_append_of_pos hip]
    simp
  have hft : fp.takeWhile Char.isDigit = fp := List.takeWhile_eq_self_iff.mpr hfp
  have hfd : fp.dropWhile Char.isDigit = [] := List.dropWhile_eq_nil_iff.mpr hfp
  rw [scenario.decimal_scan_unsigned _ hm hp, htake, hdrop]
  simp only [hft, hfd]
  simp

end file

/-! ## The round trip of a time through its label -/

namespace file

theorem floor_le_UINT_MAX (t : ℚ) (h : t < 4294967296) : ⌊t⌋ ≤ (std.UINT_MAX : ℤ) := by
  have hu : (std.UINT_MAX : ℤ) = 4294967295 := by
    unfold std.UINT_MAX
    norm_num
  have h1 : ⌊t⌋ < 4294967296 := by
    rw [Int.floor_lt]
    exact_mod_cast h
  rw [hu]
  omega

theorem setTime_eq (time : ℚ) (h0 : 0 ≤ time) (hfit : ⌊time⌋ ≤ (std.UINT_MAX : ℤ)) :
    setTime time = some ('t' :: '=' ::
      (std.num_put.put '0' 6 ⌊time⌋.toNat ++
        '.' :: std.num_put.put '0' 6 ⌊(time - (⌊time⌋ : ℤ)) * 1000000⌋.toNat)) := by
  have hf : ⌊((⌊time⌋ : ℤ) : ℚ)⌋ = ⌊time⌋ := Int.floor_intCast _
  have hw : std.to_unsigned (std.floor time) = some ⌊time⌋.toNat := by
    have h := to_unsigned_of_nonneg ((⌊time⌋ : ℤ) : ℚ)
      (by exact_mod_cast Int.floor_nonneg.mpr h0) (by rw [hf]; exact hfit)
    rw [hf] at h
    exact h
  have hmic : std.to_unsigned ((time - std.floor time) * 1000000)
      = some ⌊(time - (⌊time⌋ : ℤ)) * 1000000⌋.toNat := by
    show std.to_unsigned ((time - ((⌊time⌋ : ℤ) : ℚ)) * 1000000) = _
    refine to_unsigned_of_nonneg _ (micro_range time).1 ?_
    have h := (micro_range time).2
    have hu : (std.UINT_MAX : ℤ) = 4294967295 := by
      unfold std.UINT_MAX
      norm_num
    rw [hu]
    omega
  unfold setTime
  simp [hw, hmic]

/-- The string overload reads a label of digits, a point and digits. -/
theorem getTime_label (ng : std.num_get) (hng : spec.reads_decimal ng) (FILE : String)
    (s0 : Char) (read0 : ℚ) (ip fp : List Char) (hne : ip ≠ [])
    (hip : ∀ c ∈ ip, c.isDigit = true) (hfp : ∀ c ∈ fp, c.isDigit = true) :
    getTime ng FILE s0 read0 ('t' :: '=' :: (ip ++ '.' :: fp))
      = some (.ok ((scenario.natValue ip : ℚ) + (scenario.natValue fp : ℚ) / 10 ^ fp.length)) := by
  have hscan := hng ip fp hne hip hfp
  obtain ⟨c, cs, rfl⟩ := List.exists_cons_of_ne_nil hne
  have hc : c.isDigit = true := hip c (List.mem_cons_self _ _)
  have hnul : Char.ofNat 0 ∉ c :: (cs ++ '.' :: fp) := by
    intro h
    rw [← List.cons_append] at h
    rcases List.mem_append.mp h with h | h
    · exact isDigit_ne_nul _ (hip _ h) rfl
    · rcases List.mem_cons.mp h with h | h
      · revert h
        decide
      · exact isDigit_ne_nul _ (hfp _ h) rfl
  have hread := read_input_label ng FILE s0 read0 c (cs ++ '.' :: fp) _
    (isDigit_not_isspace c hc) hnul hscan
  unfold getTime
  rw [List.cons_append, hread]
  rfl

end file

namespace file

/-- The label of the time `12.345678`. -/
theorem setTime_example :
    setTime (12345678 / 1000000) = some "t=000012.345678".toList := by
  have h1 : ⌊(12345678 / 1000000 : ℚ)⌋ = 12 := by
    rw [Int.floor_eq_iff]
    norm_num
  have h2 : ⌊((12345678 / 1000000 : ℚ) - ((12 : ℤ) : ℚ)) * 1000000⌋ = 345678 := by
    rw [Int.floor_eq_iff]
    norm_num
  rw [setTime_eq _ (by norm_num) (floor_le_UINT_MAX _ (by norm_num)), h1, h2]
  have d1 : std.num_put.digits 12 = ['1', '2'] := by
    norm_num [std.num_put.digits]
    decide
  have d2 : std.num_put.digits 345678 = ['3', '4', '5', '6', '7', '8'] := by
    norm_num [std.num_put.digits]
    decide
  have t1 : Int.toNat 12 = 12 := rfl
  have t2 : Int.toNat 345678 = 345678 := rfl
  rw [t1, t2]
  simp only [std.num_put.put, d1, d2]
  rfl

end file
